import Mathlib

/-!
Shallow embedding of the Wailing Newt Web Walker crawl engine's policy and
analysis components, translated from the Python sources:
  - `src/core/robots_parser.py` (robots-exclusion policy engine),
  - `src/core/content_analyzer.py` (readability/keyword analyzer),
  - `src/utils/issue_filters.py` (issue exclusion filter),
  - `main.py` (crash-recovery sweep; its database collaborator `crawl_db`
    is absent from the sources and is modelled from the spec).
Python machine-level details are modelled as follows: `str` is `String`
restricted to its ASCII behaviour, `float` values are carried as exact
rationals (plus infinity/NaN markers) since no claim depends on binary
rounding, dictionaries are association lists with Python's insertion-order
update semantics, and fallible operations return `Option`.
-/

namespace WNWW

/-! ### Python string primitives -/

/-- Whitespace set used by Python's `str.strip()` (ASCII fragment). -/
def pySpace (c : Char) : Bool :=
  c = ' ' || c = '\t' || c = '\n' || c = '\r' || c = '\x0b' || c = '\x0c'

/-- `str.strip()` on a character list: drop leading and trailing whitespace. -/
def pyStripList (l : List Char) : List Char :=
  ((l.dropWhile pySpace).reverse.dropWhile pySpace).reverse

/-- Python `str.strip()`. -/
def pyStrip (s : String) : String :=
  ⟨pyStripList s.data⟩

/-- Python `str.lower()` (ASCII fragment). -/
def pyLower (s : String) : String :=
  ⟨s.data.map Char.toLower⟩

/-- Python `str.split(sep)` for a one-character separator, keeping empty
pieces exactly as Python does. -/
def pySplitChar (sep : Char) : List Char → List (List Char)
  | [] => [[]]
  | c :: cs =>
    if c = sep then [] :: pySplitChar sep cs
    else
      match pySplitChar sep cs with
      | [] => [[c]]
      | piece :: rest => (c :: piece) :: rest

/-- Python `str.startswith` on character lists (first argument is the
candidate head). -/
def leadsWith : List Char → List Char → Bool
  | [], _ => true
  | _ :: _, [] => false
  | c :: cs, x :: xs => c == x && leadsWith cs xs

/-- Split a character list at the first occurrence of `c`:
`(before, after)` with the separator dropped, or `none` when absent — the
semantics of Python's `split(c, 1)` when it does split. -/
def splitFirst (l : List Char) (c : Char) : Option (List Char × List Char) :=
  if l.contains c then some (l.takeWhile (· ≠ c), (l.dropWhile (· ≠ c)).drop 1) else none

/-! ### Robots directive pattern matching (`RobotsDirective._compile_pattern`)

The source compiles a robots path pattern to a regex: `re.escape(path)` with
`\*` turned back into `.*` and `\$` into `$`, an implicit trailing `.*` when
the pattern ends in neither `$` nor `*`, anchored at the start and used with
`re.match` (prefix semantics).  We embed the compiled regex as a token list:
every `*` of the path is a wildcard, every `$` an end anchor (true at the end
of the string or just before a final newline, as for Python's `$`), and any
other character a literal. -/

/-- One token of a compiled robots path pattern. -/
inductive RTok where
  | lit (c : Char)
  | star
  | dollar
deriving DecidableEq, Repr

/-- `.*` semantics: try the continuation at every suffix of the input. -/
def starLoop (f : List Char → Bool) : List Char → Bool
  | [] => f []
  | x :: xs => f (x :: xs) || starLoop f xs

/-- Matching of a compiled pattern against a path, with `re.match` prefix
semantics: an exhausted pattern succeeds whatever input remains. -/
def rmatch : List RTok → List Char → Bool
  | [] => fun _ => true
  | RTok.lit c :: ts => fun s =>
    match s with
    | [] => false
    | x :: xs => c == x && rmatch ts xs
  | RTok.star :: ts => starLoop (rmatch ts)
  | RTok.dollar :: ts => fun s => (s.isEmpty || s == ['\n']) && rmatch ts s

/-- Tokenization of a robots path pattern: `*` → wildcard, `$` → end anchor
(this is what survives `re.escape` plus the two replacements). -/
def tokenizePath (l : List Char) : List RTok :=
  l.map fun c => if c = '*' then RTok.star else if c = '$' then RTok.dollar else RTok.lit c

/-- The compiled pattern of `RobotsDirective._compile_pattern`: the escaped
pattern ends in `$` exactly when the path does, and in `.*` exactly when the
path ends in `*`; otherwise `.*` is appended to match subpaths. -/
def compilePattern (path : String) : List RTok :=
  let ts := tokenizePath path.data
  match path.data.getLast? with
  | some '*' => ts
  | some '$' => ts
  | _ => ts ++ [RTok.star]

/-- A single robots.txt directive (`RobotsDirective`): path pattern and
allow/deny flag.  The compiled pattern is recomputed by `matches` instead of
being stored, which is behaviourally identical. -/
structure RobotsDirective where
  path : String
  allow : Bool
deriving DecidableEq, Repr

/-- `RobotsDirective.matches`: does the compiled pattern match the path? -/
def RobotsDirective.matches (d : RobotsDirective) (p : String) : Bool :=
  rmatch (compilePattern d.path) p.data

/-! ### Python `float()` and `int()` acceptance (ASCII fragment)

`RobotsParser.parse` feeds directive values to Python's `float()` and
`int()`; a `ValueError` is what triggers a recorded parse error.  We model
the accepted grammar: optional sign; `inf`/`infinity`/`nan` case-insensitive;
otherwise digits with single underscores between digits, an optional
fractional part and an optional exponent. -/

/-- A Python float value: exact rational, infinity, or NaN. -/
inductive FloatVal where
  | finite (q : ℚ)
  | inf (pos : Bool)
  | nan
deriving DecidableEq, Repr

/-- Parse a run `digit (underscore? digit)*`: returns the digits consumed
(with underscores removed) and the rest, or `none` when the input does not
start with a digit. -/
def parseDigitsU : List Char → Option (List Char × List Char)
  | [] => none
  | c :: rest => if c.isDigit then some (goDigits [c] rest) else none
where
  goDigits (acc : List Char) : List Char → List Char × List Char
    | [] => (acc, [])
    | d :: rest =>
      if d.isDigit then goDigits (acc ++ [d]) rest
      else if d = '_' then
        match rest with
        | e :: rest' => if e.isDigit then goDigits (acc ++ [e]) rest' else (acc, d :: e :: rest')
        | [] => (acc, [d])
      else (acc, d :: rest)

/-- Numeric value of a digit list. -/
def digitsVal (l : List Char) : Nat :=
  l.foldl (fun a d => a * 10 + (d.toNat - 48)) 0

/-- The finite-float grammar after the sign: `digits [. digits?] | . digits`,
then an optional `e`/`E` exponent; the whole input must be consumed. -/
def parseFinite (sign : Int) (cs : List Char) : Option FloatVal :=
  let mant : Option (List Char × List Char × List Char) :=
    match parseDigitsU cs with
    | some (ds, rest) =>
      match rest with
      | '.' :: r2 =>
        match parseDigitsU r2 with
        | some (fs, r3) => some (ds, fs, r3)
        | none => some (ds, [], r2)
      | _ => some (ds, [], rest)
    | none =>
      match cs with
      | '.' :: r2 => (parseDigitsU r2).map fun p => ([], p.1, p.2)
      | _ => none
  match mant with
  | none => none
  | some (ds, fs, rest) =>
    let expo : Option (Int × List Char) :=
      match rest with
      | [] => some (0, [])
      | c :: r2 =>
        if c = 'e' || c = 'E' then
          let (es, r3) : Int × List Char :=
            match r2 with
            | '+' :: r => (1, r)
            | '-' :: r => (-1, r)
            | r => (1, r)
          (parseDigitsU r3).map fun p => (es * (digitsVal p.1 : Int), p.2)
        else none
    match expo with
    | some (e, []) =>
      some (FloatVal.finite ((sign : ℚ) * (digitsVal (ds ++ fs) : ℚ) / (10 : ℚ) ^ fs.length * (10 : ℚ) ^ (e : ℤ)))
    | _ => none

/-- Python `float(s)`: `none` models a raised `ValueError`. -/
def pyFloat? (s : String) : Option FloatVal :=
  let cs := pyStripList s.data
  let (sign, cs) : Int × List Char :=
    match cs with
    | '+' :: r => (1, r)
    | '-' :: r => (-1, r)
    | r => (1, r)
  let low := cs.map Char.toLower
  if low = "inf".data || low = "infinity".data then some (FloatVal.inf (sign = 1))
  else if low = "nan".data then some FloatVal.nan
  else parseFinite sign cs

/-- Python `int(s)` (base 10): `none` models a raised `ValueError`. -/
def pyInt? (s : String) : Option Int :=
  let cs := pyStripList s.data
  let (sign, cs) : Int × List Char :=
    match cs with
    | '+' :: r => (1, r)
    | '-' :: r => (-1, r)
    | r => (1, r)
  match parseDigitsU cs with
  | some (ds, []) => some (sign * (digitsVal ds : Int))
  | _ => none

/-! ### Python dictionaries as association lists

Python dicts preserve insertion order; assigning to an existing key updates
its value in place, assigning a fresh key appends. -/

/-- Dict lookup (`d[k]` / `d.get(k)`): the value at the first matching
key. -/
def dictGet {α : Type} : List (String × α) → String → Option α
  | [], _ => none
  | p :: l, k => if p.1 == k then some p.2 else dictGet l k

/-- Dict membership (`k in d`). -/
def dictHas {α : Type} (l : List (String × α)) (k : String) : Bool :=
  l.any (fun p => p.1 == k)

/-- Dict assignment (`d[k] = v`). -/
def dictSet {α : Type} (l : List (String × α)) (k : String) (v : α) : List (String × α) :=
  if dictHas l k then l.map (fun p => if p.1 == k then (p.1, v) else p) else l ++ [(k, v)]

/-- In-place mutation of the value stored at an existing key. -/
def dictUpdate {α : Type} (l : List (String × α)) (k : String) (f : α → α) : List (String × α) :=
  l.map (fun p => if p.1 == k then (p.1, f p.2) else p)

/-! ### `UserAgentRules` -/

/-- All rules for one user agent (`UserAgentRules`). -/
structure UserAgentRules where
  user_agent : String
  directives : List RobotsDirective
  crawl_delay : Option FloatVal
  request_rate : Option (Int × Int)
  sitemaps : List String
deriving DecidableEq, Repr

/-- A freshly constructed `UserAgentRules(user_agent)`. -/
def mkUserAgentRules (ua : String) : UserAgentRules :=
  ⟨ua, [], none, none, []⟩

/-- `UserAgentRules.add_directive`. -/
def UserAgentRules.add_directive (r : UserAgentRules) (path : String) (allow : Bool) : UserAgentRules :=
  { r with directives := r.directives ++ [⟨path, allow⟩] }

/-- The most-specific-match loop of `UserAgentRules.is_allowed`: carries the
current best directive and best length (initially `None` and `-1`), updating
on each directive that matches with a strictly greater path length. -/
def bestLoop : List RobotsDirective → String →
    Option RobotsDirective × Int → Option RobotsDirective × Int
  | [], _, acc => acc
  | d :: rest, p, (best, bl) =>
    if d.matches p && ((d.path.length : Int) > bl) then
      bestLoop rest p (some d, (d.path.length : Int))
    else
      bestLoop rest p (best, bl)

/-- `UserAgentRules.is_allowed`: with no directives the path is allowed;
otherwise the longest matching directive decides, and no match allows. -/
def UserAgentRules.is_allowed (r : UserAgentRules) (p : String) : Bool :=
  if r.directives.isEmpty then true
  else
    match (bestLoop r.directives p (none, -1)).1 with
    | none => true
    | some d => d.allow

/-! ### `RobotsParser.parse`: the line-oriented state machine -/

/-- The mutable state threaded through the parse loop: the rules dict, the
sitemap list, the recorded parse errors, and the local
`current_user_agents` group. -/
structure LoopState where
  user_agent_rules : List (String × UserAgentRules)
  sitemaps : List String
  parse_errors : List String
  current_user_agents : List String
deriving DecidableEq, Repr

/-- Ensure a user agent key exists in the rules dict
(`if value not in self.user_agent_rules: ... = UserAgentRules(value)`). -/
def ensureUA (rules : List (String × UserAgentRules)) (ua : String) :
    List (String × UserAgentRules) :=
  if dictHas rules ua then rules else rules ++ [(ua, mkUserAgentRules ua)]

/-- The rule set stored for a user agent, defaulting to a fresh one. -/
def uaRules (rules : List (String × UserAgentRules)) (ua : String) : UserAgentRules :=
  (dictGet rules ua).getD (mkUserAgentRules ua)

/-- The `for ua in current_user_agents` loop of the `disallow`/`allow`
branch: ensure each listed agent exists, then append the directive to its
rule set. -/
def attachAll (uas : List String) (rules : List (String × UserAgentRules))
    (path : String) (allow : Bool) : List (String × UserAgentRules) :=
  uas.foldl (fun rs ua => dictUpdate (ensureUA rs ua) ua (fun r => r.add_directive path allow)) rules

/-- Dispatch on a parsed `directive: value` pair, mirroring the cascade of
`RobotsParser.parse` (the directive name is already stripped and lowered,
the value stripped). -/
def handleDirective (ls : LoopState) (line_num : Nat) (directive value : String) : LoopState :=
  if directive = "user-agent" then
    let rules1 := ensureUA ls.user_agent_rules value
    let newCurrent :=
      match ls.current_user_agents with
      | [] => ls.current_user_agents ++ [value]
      | ua0 :: _ =>
        match dictGet rules1 ua0 with
        | some r => if r.directives.isEmpty then ls.current_user_agents ++ [value] else [value]
        | none => ls.current_user_agents ++ [value]
    { ls with user_agent_rules := rules1, current_user_agents := newCurrent }
  else if directive = "disallow" || directive = "allow" then
    if ls.current_user_agents.isEmpty then
      { ls with parse_errors := ls.parse_errors ++
          ["Line " ++ toString line_num ++ ": Directive without user-agent"] }
    else
      let is_allow := directive == "allow"
      { ls with user_agent_rules := attachAll ls.current_user_agents ls.user_agent_rules value is_allow }
  else if directive = "crawl-delay" then
    match pyFloat? value with
    | some delay =>
      let rules' := ls.current_user_agents.foldl
        (fun rs ua => if dictHas rs ua then dictUpdate rs ua (fun r => { r with crawl_delay := some delay }) else rs)
        ls.user_agent_rules
      { ls with user_agent_rules := rules' }
    | none =>
      { ls with parse_errors := ls.parse_errors ++
          ["Line " ++ toString line_num ++ ": Invalid crawl-delay value"] }
  else if directive = "request-rate" then
    let parts := (pySplitChar '/' value.data).map (fun l => (⟨l⟩ : String))
    if parts.length = 2 then
      match pyInt? (parts.headD ""), pyInt? (parts.getD 1 "") with
      | some requests_count, some seconds =>
        let rules' := ls.current_user_agents.foldl
          (fun rs ua => if dictHas rs ua then dictUpdate rs ua (fun r => { r with request_rate := some (requests_count, seconds) }) else rs)
          ls.user_agent_rules
        { ls with user_agent_rules := rules' }
      | _, _ =>
        { ls with parse_errors := ls.parse_errors ++
            ["Line " ++ toString line_num ++ ": Invalid request-rate value"] }
    else ls
  else if directive = "sitemap" then
    if value ≠ "" && ¬ ls.sitemaps.contains value then
      { ls with sitemaps := ls.sitemaps ++ [value] }
    else ls
  else if directive = "host" then ls
  else
    { ls with parse_errors := ls.parse_errors ++
        ["Line " ++ toString line_num ++ ": Unknown directive '" ++ directive ++ "'"] }

/-- Process one raw line of robots.txt: strip the `#` comment and
whitespace, skip blank lines, require a `:`, split into directive and value
(first `:` only, as `split(':', 1)`), then dispatch. -/
def parseLine (ls : LoopState) (line_num : Nat) (rawLine : String) : LoopState :=
  let line : String := pyStrip ⟨rawLine.data.takeWhile (· ≠ '#')⟩
  if line = "" then ls
  else
    match splitFirst line.data ':' with
    | none =>
      { ls with parse_errors := ls.parse_errors ++
          ["Line " ++ toString line_num ++ ": Invalid syntax"] }
    | some (d, v) =>
      handleDirective ls line_num (pyLower (pyStrip ⟨d⟩)) (pyStrip ⟨v⟩)

/-- The comprehensive parser object (`RobotsParser`).  The network-facing
fields `url` and `last_fetched` are carried so `fetch_and_parse` can be
embedded; the HTTP client itself stays external. -/
structure RobotsParser where
  timeout : Nat
  user_agent_rules : List (String × UserAgentRules)
  sitemaps : List String
  raw_content : String
  parse_errors : List String
  url : Option String
  last_fetched : Option String
deriving DecidableEq, Repr

/-- `RobotsParser()` with the default timeout of 10 seconds. -/
def mkRobotsParser (timeout : Nat := 10) : RobotsParser :=
  ⟨timeout, [], [], "", [], none, none⟩

/-- `RobotsParser.parse`: reset the rule/sitemap/error state, then run the
line loop over `content.split('\n')` with 1-based line numbers. -/
def RobotsParser.parse (st : RobotsParser) (content : String) : RobotsParser :=
  let lines := (pySplitChar '\n' content.data).map (fun l => (⟨l⟩ : String))
  let final : LoopState := lines.enum.foldl (fun ls li => parseLine ls (li.1 + 1) li.2)
    (LoopState.mk [] [] [] [])
  { st with raw_content := content,
            user_agent_rules := final.user_agent_rules,
            sitemaps := final.sitemaps,
            parse_errors := final.parse_errors }

/-! ### `urllib.parse.urlparse` (the fragment the sources use)

Faithful to CPython's `urlsplit`: an initial `scheme:` is recognized when the
text before the first `:` starts with an ASCII letter and continues with
letters, digits or `+`/`-`/`.`; `//` then introduces a netloc running to the
first `/`, `?` or `#`; the fragment is split at the first `#`, the query at
the first `?`; `urlparse` finally splits `;params` off the last path
segment. -/

/-- Characters allowed after the first one in a URL scheme. -/
def schemeChar (c : Char) : Bool :=
  c.isAlpha || c.isDigit || c = '+' || c = '-' || c = '.'

/-- Result of `urlparse`. -/
structure UrlParts where
  scheme : String
  netloc : String
  path : String
  params : String
  query : String
  fragment : String
deriving DecidableEq, Repr

/-- The `scheme:` recognition of `urlsplit`: split off the text before the
first `:` when it starts with an ASCII letter and continues with scheme
characters; otherwise no scheme.  Returns `(scheme, rest)`. -/
def schemeSplit (cs : List Char) : List Char × List Char :=
  match splitFirst cs ':' with
  | some (pre, post) =>
    match pre with
    | [] => ([], cs)
    | c0 :: crest =>
      if c0.isAlpha && crest.all schemeChar then (pre.map Char.toLower, post)
      else ([], cs)
  | none => ([], cs)

/-- A character that does not end the netloc (`urlsplit` stops it at `/`,
`?` or `#`). -/
def netDelim (c : Char) : Bool :=
  c ≠ '/' && c ≠ '?' && c ≠ '#'

/-- The `//netloc` recognition of `urlsplit`: after a leading `//`, the
netloc runs while `netDelim` holds.  Returns `(netloc, rest)`. -/
def netlocSplit (rest : List Char) : List Char × List Char :=
  match rest with
  | c1 :: c2 :: r =>
    if c1 = '/' ∧ c2 = '/' then (r.takeWhile netDelim, r.dropWhile netDelim)
    else ([], rest)
  | _ => ([], rest)

/-- Fragment split of `urlsplit` at the first `#`: `(rest, fragment)`. -/
def fragSplit (rest : List Char) : List Char × List Char :=
  match splitFirst rest '#' with
  | some (a, b) => (a, b)
  | none => (rest, [])

/-- Query split of `urlsplit` at the first `?`: `(rawPath, query)`. -/
def querySplit (rest : List Char) : List Char × List Char :=
  match splitFirst rest '?' with
  | some (a, b) => (a, b)
  | none => (rest, [])

/-- The `;params` split of `urlparse` on the last path segment:
`(path, params)`. -/
def paramsSplit (rawPath : List Char) : List Char × List Char :=
  let tail := if rawPath.contains '/' then (rawPath.reverse.takeWhile (· ≠ '/')).reverse else rawPath
  match splitFirst tail ';' with
  | some _ =>
    let keep := rawPath.length - ((tail.dropWhile (· ≠ ';')).length)
    (rawPath.take keep, (rawPath.drop keep).drop 1)
  | none => (rawPath, [])

/-- `urllib.parse.urlparse` on the modelled fragment: scheme, then netloc,
then fragment, then query, then params. -/
def pyUrlparse (url : String) : UrlParts :=
  let s := schemeSplit url.data
  let n := netlocSplit s.2
  let f := fragSplit n.2
  let qr := querySplit f.1
  let pp := paramsSplit qr.1
  ⟨⟨s.1⟩, ⟨n.1⟩, ⟨pp.1⟩, ⟨pp.2⟩, ⟨qr.2⟩, ⟨f.2⟩⟩

/-! ### `RobotsParser.fetch_and_parse` and `RobotsParser.is_allowed` -/

/-- The outcome of the external `requests.get` call: a response with a status
code and body, a timeout, a request exception, or any other exception. -/
inductive HttpOutcome where
  | resp (status : Nat) (text : String)
  | timeout
  | reqError (msg : String)
  | exc (msg : String)
deriving DecidableEq, Repr

/-- `RobotsParser.fetch_and_parse`: build `{scheme}://{netloc}/robots.txt`,
record it, then branch on the response: 200 parses the body and stamps
`last_fetched` (the ambient clock is passed in as `now`); 404 means
everything allowed with no rules; anything else records an error and
reports failure. -/
def RobotsParser.fetch_and_parse (st : RobotsParser) (url : String)
    (outcome : HttpOutcome) (now : String) : RobotsParser × Bool :=
  let parsed := pyUrlparse url
  let robots_url := parsed.scheme ++ "://" ++ parsed.netloc ++ "/robots.txt"
  let st := { st with url := some robots_url }
  match outcome with
  | HttpOutcome.resp 200 text =>
    ({ st.parse text with last_fetched := some now }, true)
  | HttpOutcome.resp 404 _ =>
    ({ st with raw_content := "" }, true)
  | HttpOutcome.resp code _ =>
    ({ st with parse_errors := st.parse_errors ++ ["HTTP " ++ toString code] }, false)
  | HttpOutcome.timeout =>
    ({ st with parse_errors := st.parse_errors ++ ["Request timed out"] }, false)
  | HttpOutcome.reqError m =>
    ({ st with parse_errors := st.parse_errors ++ ["Network error: " ++ m] }, false)
  | HttpOutcome.exc m =>
    ({ st with parse_errors := st.parse_errors ++ ["Error: " ++ m] }, false)

/-- `RobotsParser.is_allowed`: extract path (plus `?query` when present),
prefer the exact user-agent rule set, then the wildcard, else allow. -/
def RobotsParser.is_allowed (st : RobotsParser) (url : String)
    (user_agent : String := "*") : Bool :=
  let parsed := pyUrlparse url
  let path := parsed.path ++ (if parsed.query ≠ "" then "?" ++ parsed.query else "")
  match dictGet st.user_agent_rules user_agent with
  | some r => r.is_allowed path
  | none =>
    match dictGet st.user_agent_rules "*" with
    | some r => r.is_allowed path
    | none => true

/-! ### `CustomRobotsManager` -/

/-- Per-subdomain custom robots.txt contents and their parsers. -/
structure CustomRobotsManager where
  custom_robots : List (String × String)
  parsers : List (String × RobotsParser)
deriving DecidableEq, Repr

/-- `CustomRobotsManager()`. -/
def mkCustomRobotsManager : CustomRobotsManager := ⟨[], []⟩

/-- `CustomRobotsManager.add_subdomain`: store the raw content and a freshly
parsed `RobotsParser` for it. -/
def CustomRobotsManager.add_subdomain (m : CustomRobotsManager)
    (subdomain content : String) : CustomRobotsManager :=
  { custom_robots := dictSet m.custom_robots subdomain content,
    parsers := dictSet m.parsers subdomain (mkRobotsParser.parse content) }

/-- `CustomRobotsManager.remove_subdomain`: drop the subdomain's stored
content and parser, reporting whether it was present. -/
def CustomRobotsManager.remove_subdomain (m : CustomRobotsManager)
    (subdomain : String) : CustomRobotsManager × Bool :=
  if dictHas m.custom_robots subdomain then
    ({ custom_robots := m.custom_robots.filter (fun p => ¬ p.1 == subdomain),
       parsers := m.parsers.filter (fun p => ¬ p.1 == subdomain) }, true)
  else (m, false)

/-- `CustomRobotsManager.clear`. -/
def CustomRobotsManager.clear (_ : CustomRobotsManager) : CustomRobotsManager :=
  ⟨[], []⟩

/-- `CustomRobotsManager.get_subdomain_content`. -/
def CustomRobotsManager.get_subdomain_content (m : CustomRobotsManager)
    (subdomain : String) : Option String :=
  dictGet m.custom_robots subdomain

/-- `CustomRobotsManager.is_allowed`: look the URL's netloc up among the
per-subdomain parsers; no custom rules means allowed. -/
def CustomRobotsManager.is_allowed (m : CustomRobotsManager) (url : String)
    (user_agent : String := "*") : Bool :=
  let subdomain := (pyUrlparse url).netloc
  match dictGet m.parsers subdomain with
  | some p => p.is_allowed url user_agent
  | none => true

/-- `CustomRobotsManager.to_dict`: the serialized payload is the
subdomain → content mapping (stored under the `custom_robots` key). -/
def CustomRobotsManager.to_dict (m : CustomRobotsManager) : List (String × String) :=
  m.custom_robots

/-- `CustomRobotsManager.from_dict`: clear both dicts, then `add_subdomain`
for every stored entry in order. -/
def CustomRobotsManager.from_dict (m : CustomRobotsManager)
    (data : List (String × String)) : CustomRobotsManager :=
  data.foldl (fun acc p => acc.add_subdomain p.1 p.2)
    { m with custom_robots := [], parsers := [] }

/-! ### `ContentAnalyzer` (`src/core/content_analyzer.py`)

Readability scores are computed over exact rationals; Python's `round`
(banker's rounding) is modelled exactly on rationals. -/

/-- Word characters of the regex `\w` (ASCII fragment). -/
def isWordChar (c : Char) : Bool :=
  c.isAlpha || c.isDigit || c = '_'

/-- Single-pass accumulation of maximal word-character runs. -/
def wordRunsAux (acc : List Char) : List Char → List (List Char)
  | [] => if acc.isEmpty then [] else [acc]
  | c :: cs =>
    if isWordChar c then wordRunsAux (acc ++ [c]) cs
    else if acc.isEmpty then wordRunsAux [] cs
    else acc :: wordRunsAux [] cs

/-- Maximal runs of word characters: exactly what
`re.findall(r'\b\w+\b', text)` returns. -/
def wordRuns (l : List Char) : List (List Char) :=
  wordRunsAux [] l

/-- `ContentAnalyzer._count_words`: tokens of the lowered text. -/
def countWords (text : String) : Nat :=
  (wordRuns (pyLower text).data).length

/-- Whitespace of the regex `\s` (ASCII fragment). -/
def isReSpace (c : Char) : Bool :=
  c = ' ' || c = '\t' || c = '\n' || c = '\r' || c = '\x0b' || c = '\x0c'

/-- Sentence punctuation `[.!?]`. -/
def isSentencePunct (c : Char) : Bool :=
  c = '.' || c = '!' || c = '?'

/-!
The pieces produced by `re.split(r'[.!?]+(?:\s+|$)', text)`: scanning left
to right, a punctuation run followed by whitespace or by the end of the
string is a match (the piece so far is emitted and the match consumed);
a punctuation run followed by anything else fails at every position inside
the run, so the run joins the current piece.  The scan is a three-mode
state machine: accumulating a piece, inside a punctuation run, or skipping
the whitespace of a match. -/

mutual

/-- Piece-accumulation mode of the sentence-split scanner (`acc` holds the
current piece reversed). -/
def sentNormal (acc : List Char) : List Char → List (List Char)
  | [] => [acc.reverse]
  | c :: cs => if isSentencePunct c then sentPunct acc [c] cs else sentNormal (c :: acc) cs

/-- Punctuation-run mode (`pacc` holds the run; nonempty). -/
def sentPunct (acc pacc : List Char) : List Char → List (List Char)
  | [] => [acc.reverse, []]
  | c :: cs =>
    if isSentencePunct c then sentPunct acc (c :: pacc) cs
    else if isReSpace c then acc.reverse :: sentSpace cs
    else sentNormal (c :: (pacc ++ acc)) cs

/-- Whitespace-skipping mode after a completed match. -/
def sentSpace : List Char → List (List Char)
  | [] => [[]]
  | c :: cs =>
    if isReSpace c then sentSpace cs
    else if isSentencePunct c then sentPunct [] [c] cs
    else sentNormal [c] cs

end

/-- `ContentAnalyzer._count_sentences`: pieces that are non-blank after
stripping. -/
def countSentences (text : String) : Nat :=
  (sentNormal [] text.data).countP (fun p => ¬ (pyStripList p).isEmpty)

/-- Vowels used by the syllable heuristic. -/
def isVowel (c : Char) : Bool :=
  c = 'a' || c = 'e' || c = 'i' || c = 'o' || c = 'u' || c = 'y'

/-- Count vowel-group starts scanning with a previous-was-vowel flag. -/
def vowelGroups : Bool → List Char → Nat
  | _, [] => 0
  | prev, c :: cs =>
    (if isVowel c && ¬ prev then 1 else 0) + vowelGroups (isVowel c) cs

/-- `ContentAnalyzer._count_syllables_in_word`: short words count one
syllable; otherwise strip a trailing silent `e` and count vowel groups,
at least one. -/
def countSyllablesInWord (w : String) : Nat :=
  let w := pyLower w
  if w.length ≤ 3 then 1
  else
    let l := if w.data.getLast? = some 'e' then w.data.dropLast else w.data
    max 1 (vowelGroups false l)

/-- `ContentAnalyzer._count_syllables`: sum over the tokens of the lowered
text. -/
def countSyllables (text : String) : Nat :=
  ((wordRuns (pyLower text).data).map (fun l => countSyllablesInWord ⟨l⟩)).sum

/-- `ContentAnalyzer._count_complex_words`: tokens with at least three
syllables. -/
def countComplexWords (text : String) : Nat :=
  (wordRuns (pyLower text).data).countP (fun l => 3 ≤ countSyllablesInWord ⟨l⟩)

/-- Maximum of two rationals (Python `max`). -/
def ratMax (a b : ℚ) : ℚ := if a ≤ b then b else a

/-- Minimum of two rationals (Python `min`). -/
def ratMin (a b : ℚ) : ℚ := if a ≤ b then a else b

/-- Floor of a rational: Euclidean division of the numerator by the
(positive) denominator. -/
def ratFloor (q : ℚ) : ℤ := q.num / (q.den : ℤ)

/-- Ceiling of a rational (Python `math.ceil`). -/
def ratCeil (q : ℚ) : ℤ := -(ratFloor (-q))

/-- Python `round()` to an integer: round half to even. -/
def pyRoundInt (q : ℚ) : ℤ :=
  let f := ratFloor q
  let r := q - f
  if r < 1 / 2 then f
  else if 1 / 2 < r then f + 1
  else if f % 2 = 0 then f else f + 1

/-- Python `round(q, dp)`. -/
def pyRound (q : ℚ) (dp : ℕ) : ℚ :=
  (pyRoundInt (q * (10 : ℚ) ^ dp) : ℚ) / (10 : ℚ) ^ dp

/-- `ContentAnalyzer._calculate_flesch_kincaid` (Flesch Reading Ease),
clamped to [0, 100] and rounded to one decimal. -/
def fleschReadingEase (w s sy : Nat) : ℚ :=
  if w = 0 || s = 0 then 0
  else
    pyRound (ratMax 0 (ratMin 100 (206835 / 1000 - 1015 / 1000 * ((w : ℚ) / s) - 846 / 10 * ((sy : ℚ) / w)))) 1

/-- `ContentAnalyzer._calculate_flesch_kincaid_grade`, floored at 0 and
rounded to one decimal. -/
def fleschKincaidGrade (w s sy : Nat) : ℚ :=
  if w = 0 || s = 0 then 0
  else pyRound (ratMax 0 (39 / 100 * ((w : ℚ) / s) + 118 / 10 * ((sy : ℚ) / w) - 1559 / 100)) 1

/-- `ContentAnalyzer._calculate_gunning_fog`, floored at 0 and rounded to
one decimal. -/
def gunningFog (text : String) (w s : Nat) : ℚ :=
  if w = 0 || s = 0 then 0
  else
    let complex_words := countComplexWords text
    pyRound (ratMax 0 (4 / 10 * (((w : ℚ) / s) + 100 * ((complex_words : ℚ) / w)))) 1

/-- The stop-word set of `ContentAnalyzer.__init__`. -/
def stopWords : List String :=
  ["a", "an", "the", "and", "or", "but", "if", "because", "as", "what",
   "when", "where", "how", "who", "whom", "which", "this", "that", "these",
   "those", "am", "is", "are", "was", "were", "be", "been", "being",
   "have", "has", "had", "having", "do", "does", "did", "doing",
   "i", "you", "he", "she", "it", "we", "they", "me", "him", "her", "us", "them",
   "my", "your", "his", "its", "our", "their", "mine", "yours", "hers", "ours", "theirs",
   "in", "on", "at", "to", "from", "by", "for", "with", "about", "against", "between",
   "into", "through", "during", "before", "after", "above", "below", "under", "over"]

/-- Python `str.isdigit()` (ASCII fragment): nonempty and all digits. -/
def pyIsDigit (s : String) : Bool :=
  ¬ s.data.isEmpty && s.data.all Char.isDigit

/-- One extracted keyword with its count and density percentage. -/
structure Keyword where
  word : String
  count : Nat
  density : ℚ
deriving DecidableEq, Repr

/-- Per-word counts in first-occurrence order, as a `collections.Counter`
built by iteration records them. -/
def countsInOrder (ws : List String) : List (String × Nat) :=
  ws.foldl (fun acc w =>
    if dictHas acc w then dictUpdate acc w (· + 1) else acc ++ [(w, 1)]) []

/-- Stable insertion (from the right) keeping counts descending: models the
stable descending sort of `Counter.most_common`. -/
def insertByCount (x : String × Nat) : List (String × Nat) → List (String × Nat)
  | [] => [x]
  | y :: ys => if y.2 ≤ x.2 then x :: y :: ys else y :: insertByCount x ys

/-- Stable sort by count descending (ties keep first-occurrence order). -/
def sortByCountDesc (l : List (String × Nat)) : List (String × Nat) :=
  l.foldr insertByCount []

/-- `ContentAnalyzer._extract_keywords`: tokenize the lowered text, drop
stop words, short tokens and all-digit tokens, then report the `top_n` most
common with density percentages rounded to two decimals. -/
def extractKeywords (text : String) (top_n : Nat) : List Keyword :=
  let ws := (wordRuns (pyLower text).data).map (fun l => (⟨l⟩ : String))
  let filtered := ws.filter fun w =>
    ¬ stopWords.contains w && 2 < w.length && ¬ pyIsDigit w
  let total := filtered.length
  if total = 0 then []
  else
    ((sortByCountDesc (countsInOrder filtered)).take top_n).map fun p =>
      ⟨p.1, p.2, pyRound ((p.2 : ℚ) / total * 100) 2⟩

/-- The metrics dictionary returned by `ContentAnalyzer.analyze_content`. -/
structure ContentMetrics where
  word_count : Nat
  sentence_count : Nat
  readability_score : ℚ
  flesch_kincaid_grade : ℚ
  gunning_fog_index : ℚ
  reading_time_minutes : ℤ
  keywords : List Keyword
  is_thin_content : Bool
deriving DecidableEq, Repr

/-- `ContentAnalyzer._get_empty_result`: the fixed all-zero result with the
thin-content flag set. -/
def emptyResult : ContentMetrics :=
  ⟨0, 0, 0, 0, 0, 0, [], true⟩

/-- `ContentAnalyzer.analyze_content`. -/
def analyze_content (text : String) : ContentMetrics :=
  if text = "" || pyStrip text = "" then emptyResult
  else
    let word_count := countWords text
    let sentence_count := countSentences text
    let syllable_count := countSyllables text
    if word_count = 0 || sentence_count = 0 then emptyResult
    else
      { word_count := word_count,
        sentence_count := sentence_count,
        readability_score := fleschReadingEase word_count sentence_count syllable_count,
        flesch_kincaid_grade := fleschKincaidGrade word_count sentence_count syllable_count,
        gunning_fog_index := gunningFog text word_count sentence_count,
        reading_time_minutes := ratCeil ((word_count : ℚ) / 200),
        keywords := extractKeywords text 20,
        is_thin_content := decide (word_count < 300) }

/-! ### `fnmatch` glob matching (`src/utils/issue_filters.py` dependency)

Models `fnmatch.fnmatch` on POSIX (where `os.path.normcase` is the
identity): `*` matches any run of characters, `?` any single character,
`[seq]`/`[!seq]` a character class with ranges; a `[` with no closing `]`
is a literal.  Matching is anchored at both ends (`translate` appends
`\Z`). -/

/-- One token of a translated glob pattern. -/
inductive GTok where
  | lit (c : Char)
  | anyChar
  | star
  | cls (stuff : List Char)
deriving DecidableEq, Repr

/-- Split a character list at the first `]`. -/
def findClose : List Char → Option (List Char × List Char)
  | [] => none
  | c :: r =>
    if c = ']' then some ([], r)
    else (findClose r).map (fun p => (c :: p.1, p.2))

/-- The `[`-handling prelude of `fnmatch.translate`: an optional `!` and an
optional first `]` belong to the class body.  Returns the consumed prefix
and the rest. -/
def classSplitPre (rest : List Char) : List Char × List Char :=
  match rest with
  | [] => ([], [])
  | c1 :: r1 =>
    if c1 = '!' then
      match r1 with
      | [] => (['!'], [])
      | c2 :: r2 => if c2 = ']' then (['!', ']'], r2) else (['!'], r1)
    else if c1 = ']' then ([']'], r1)
    else ([], rest)

/-- The class body and remainder after a `[`: prelude plus everything up to
the closing `]`, or `none` when there is no closing `]`. -/
def classBody (rest : List Char) : Option (List Char × List Char) :=
  let p := classSplitPre rest
  (findClose p.2).map (fun q => (p.1 ++ q.1, q.2))

/-- Tokenize a glob pattern following `fnmatch.translate`: on `[`, an
optional `!`, then an optional first `]`, belong to the class body, which
runs to the next `]`; with no such `]` the `[` is literal.  The recursion
is fuelled (every step consumes at least one character, so the pattern
length is enough fuel), keeping the definition kernel-computable. -/
def globTokensF : Nat → List Char → List GTok
  | 0, _ => []
  | _ + 1, [] => []
  | fuel + 1, c :: rest =>
    if c = '*' then GTok.star :: globTokensF fuel rest
    else if c = '?' then GTok.anyChar :: globTokensF fuel rest
    else if c = '[' then
      match classBody rest with
      | none => GTok.lit '[' :: globTokensF fuel rest
      | some (stuff, after) => GTok.cls stuff :: globTokensF fuel after
    else GTok.lit c :: globTokensF fuel rest

/-- Tokenization of a glob pattern, seeded with enough fuel. -/
def globTokens (l : List Char) : List GTok :=
  globTokensF l.length l

/-- Membership of a character in the items of a class body (after the
optional negation marker): `a-b` is a range, anything else literal. -/
def clsItems : List Char → Char → Bool
  | a :: '-' :: b :: rest, c =>
    ((a ≤ c && c ≤ b) : Bool) || clsItems rest c
  | a :: rest, c => (a = c) || clsItems rest c
  | [], _ => false

/-- Character-class matching with `!` negation. -/
def clsMatches (stuff : List Char) (c : Char) : Bool :=
  match stuff with
  | '!' :: items => ¬ clsItems items c
  | items => clsItems items c

/-- Anchored matching of a tokenized glob pattern (the `\Z` of
`fnmatch.translate`: the whole name must be consumed). -/
def matchGlob : List GTok → List Char → Bool
  | [] => fun s => s.isEmpty
  | GTok.lit c :: ts => fun s =>
    match s with
    | [] => false
    | x :: xs => c == x && matchGlob ts xs
  | GTok.anyChar :: ts => fun s =>
    match s with
    | [] => false
    | _ :: xs => matchGlob ts xs
  | GTok.star :: ts => starLoop (matchGlob ts)
  | GTok.cls stuff :: ts => fun s =>
    match s with
    | [] => false
    | x :: xs => clsMatches stuff x && matchGlob ts xs

/-- `fnmatch.fnmatch(name, pat)` on POSIX. -/
def fnmatchB (name pat : String) : Bool :=
  matchGlob (globTokens pat.data) name.data

/-! ### `filter_issues_by_exclusion_patterns` (`src/utils/issue_filters.py`) -/

/-- An issue record is a dictionary; the filter only reads its `url` key. -/
def Issue : Type := List (String × String)

instance : DecidableEq Issue := by
  unfold Issue
  infer_instance

/-- `issue.get('url', '')`. -/
def issueUrl (i : Issue) : String :=
  (dictGet i "url").getD ""

/-- Python `str.rstrip('*')`. -/
def rstripStar (s : String) : String :=
  ⟨(s.data.reverse.dropWhile (· = '*')).reverse⟩

/-- The per-pattern decision of the filter loop body, on the URL's path:
glob matching when the pattern contains `*`, exact equality or a prefix
test (after `rstrip('*')`) otherwise. -/
def patternExcludes (path pattern : String) : Bool :=
  if pattern.data.contains '*' then fnmatchB path pattern
  else path == pattern || leadsWith (rstripStar pattern).data path.data

/-- Whether the loop skips a pattern: blank after stripping, or a `#`
comment. -/
def patternSkipped (pattern : String) : Bool :=
  pyStrip pattern = "" || leadsWith "#".data (pyStrip pattern).data

/-- Whether an issue is excluded by some active pattern (the loop's
`should_exclude` with its early `break`). -/
def shouldExclude (i : Issue) (patterns : List String) : Bool :=
  let path := (pyUrlparse (issueUrl i)).path
  patterns.any (fun p => ¬ patternSkipped p && patternExcludes path p)

/-- `filter_issues_by_exclusion_patterns`. -/
def filter_issues_by_exclusion_patterns (issues : List Issue)
    (exclusion_patterns : List String) : List Issue :=
  if exclusion_patterns.isEmpty then issues
  else issues.filter (fun i => ¬ shouldExclude i exclusion_patterns)

/-! ### Crash recovery (`main.py: recover_crashed_crawls`)

The persistence collaborator `src/crawl_db.py` is not among the sources;
its two functions used here are modelled from the spec. -/

/-- A persisted crawl job row (the fields the sweep touches). -/
structure CrawlJob where
  id : Nat
  base_url : String
  status : String
deriving DecidableEq, Repr

/-- Modelled from the spec: `crawl_db.get_crashed_crawls` — the
`listCrashedJobs()` query of the persistence collaborator, returning every
persisted job whose status is `running` at process start (`src/crawl_db.py`
is absent from the sources). -/
def get_crashed_crawls (db : List CrawlJob) : List CrawlJob :=
  db.filter (fun j => j.status == "running")

/-- Modelled from the spec: `crawl_db.set_crawl_status` — the
`setStatus(jobId, status)` write of the persistence collaborator
(`src/crawl_db.py` is absent from the sources). -/
def set_crawl_status (db : List CrawlJob) (id : Nat) (status : String) : List CrawlJob :=
  db.map (fun j => if j.id == id then { j with status := status } else j)

/-- `recover_crashed_crawls` (`main.py`): query the crashed jobs, then mark
each one `failed`. -/
def recover_crashed_crawls (db : List CrawlJob) : List CrawlJob :=
  (get_crashed_crawls db).foldl (fun d c => set_crawl_status d c.id "failed") db

/-! ### Concrete instances used by the claim theorems -/

/-- The spec's example rule set, declared `Disallow` first. -/
def privateRules1 : UserAgentRules :=
  ⟨"*", [⟨"/private/", false⟩, ⟨"/private/public.html", true⟩], none, none, []⟩

/-- The spec's example rule set, declared `Allow` first. -/
def privateRules2 : UserAgentRules :=
  ⟨"*", [⟨"/private/public.html", true⟩, ⟨"/private/", false⟩], none, none, []⟩

/-- The rule set of a user agent in a `LoopState`, defaulting to a fresh
one. -/
def ruleSetOf (ls : LoopState) (ua : String) : UserAgentRules :=
  uaRules ls.user_agent_rules ua

/-- A robots.txt input on which consecutive `user-agent` lines (A then C,
lines 5 and 6) do not share a group: A's rule set already carries a
directive from its earlier group, so the C line starts a fresh group. -/
def c4content : String :=
  "user-agent: A\ndisallow: /x\nuser-agent: B\ndisallow: /y\nuser-agent: A\nuser-agent: C\ndisallow: /z"

/-- A robots.txt input whose `request-rate` value `5` is malformed (not of
the `N/M` form) yet triggers no recorded parse error. -/
def c5content : String := "user-agent: *\nrequest-rate: 5"

/-- An issue whose URL path ends in `.json`. -/
def jsonIssue : Issue := [("url", "https://example.com/data.json")]

/-- An issue whose URL path ends in `.html`. -/
def htmlIssue : Issue := [("url", "https://example.com/page.html")]

/-- A small persisted-jobs table with one `running` and one `completed`
row. -/
def sampleDb : List CrawlJob :=
  [⟨1, "https://a.example", "running"⟩, ⟨2, "https://b.example", "completed"⟩]

/-- A default job row for `getD`-style indexing. -/
def defaultJob : CrawlJob := ⟨0, "", "idle"⟩

/-- A one-subdomain custom robots manager built through the public API. -/
def sampleManager : CustomRobotsManager :=
  mkCustomRobotsManager.add_subdomain "sub.example.com" "user-agent: *\ndisallow: /private/"

/-- Well-formedness of a `CustomRobotsManager`: subdomain keys are distinct
and the parsers dict is exactly the parse of the stored contents — the
invariant every manager built through `add_subdomain`/`remove_subdomain`/
`clear`/`from_dict` satisfies. -/
def CRMWf (m : CustomRobotsManager) : Prop :=
  (m.custom_robots.map Prod.fst).Nodup ∧
  m.parsers = m.custom_robots.map (fun p => (p.1, mkRobotsParser.parse p.2))

/-! ## Theorems -/

/-- Invariant of the best-match loop of `UserAgentRules.is_allowed`: the
best length never decreases, the carried best is always a matching
directive of exactly the carried length drawn from the accumulator or the
list, every matching directive's length is bounded by the final length,
and a `none` result means the accumulator was `none` all along. -/
theorem bestLoop_spec (p : String) :
    ∀ (ds : List RobotsDirective) (b0 : Option RobotsDirective) (l0 : Int),
      (∀ b, b0 = some b → b.matches p = true ∧ (b.path.length : Int) = l0) →
      l0 ≤ (bestLoop ds p (b0, l0)).2 ∧
      (∀ b, (bestLoop ds p (b0, l0)).1 = some b →
        b.matches p = true ∧ (b.path.length : Int) = (bestLoop ds p (b0, l0)).2 ∧
        (b0 = some b ∨ b ∈ ds)) ∧
      (∀ d ∈ ds, d.matches p = true → (d.path.length : Int) ≤ (bestLoop ds p (b0, l0)).2) ∧
      ((bestLoop ds p (b0, l0)).1 = none → b0 = none ∧ (bestLoop ds p (b0, l0)).2 = l0) := by
  intro ds
  induction ds with
  | nil =>
    intro b0 l0 h0
    refine ⟨le_refl _, ?_, ?_, ?_⟩
    · intro b hb
      rcases h0 b hb with ⟨h1, h2⟩
      exact ⟨h1, h2, Or.inl hb⟩
    · intro d hd
      simp at hd
    · intro _
      exact ⟨by assumption, rfl⟩
  | cons d rest ih =>
    intro b0 l0 h0
    rw [bestLoop]
    by_cases hc : (d.matches p && ((d.path.length : Int) > l0)) = true
    · rw [if_pos hc]
      rw [Bool.and_eq_true] at hc
      have hdm : d.matches p = true := hc.1
      have hdl : (l0 : Int) < (d.path.length : Int) := by
        have := hc.2
        simpa [gt_iff_lt, decide_eq_true_eq] using this
      have h0' : ∀ b, (some d : Option RobotsDirective) = some b →
          b.matches p = true ∧ (b.path.length : Int) = (d.path.length : Int) := by
        intro b hb
        injection hb with hb'
        exact hb' ▸ ⟨hdm, rfl⟩
      rcases ih (some d) (d.path.length : Int) h0' with ⟨ih1, ih2, ih3, ih4⟩
      refine ⟨le_of_lt (lt_of_lt_of_le hdl ih1), ?_, ?_, ?_⟩
      · intro b hb
        rcases ih2 b hb with ⟨m1, m2, m3⟩
        refine ⟨m1, m2, Or.inr ?_⟩
        rcases m3 with h | h
        · injection h with h'
          exact h' ▸ List.mem_cons_self d rest
        · exact List.mem_cons_of_mem d h
      · intro e he hem
        rcases List.mem_cons.mp he with h | h
        · exact h ▸ ih1
        · exact ih3 e h hem
      · intro hres
        rcases ih4 hres with ⟨h, _⟩
        exact absurd h (by simp)
    · rw [if_neg hc]
      have hcf : d.matches p = false ∨ (d.path.length : Int) ≤ l0 := by
        by_cases hm : d.matches p = true
        · right
          by_contra hl
          exact hc (by simp [hm]; omega)
        · left
          exact Bool.eq_false_iff.mpr hm
      rcases ih b0 l0 h0 with ⟨ih1, ih2, ih3, ih4⟩
      refine ⟨ih1, ?_, ?_, ?_⟩
      · intro b hb
        rcases ih2 b hb with ⟨m1, m2, m3⟩
        refine ⟨m1, m2, ?_⟩
        rcases m3 with h | h
        · exact Or.inl h
        · exact Or.inr (List.mem_cons_of_mem d h)
      · intro e he hem
        rcases List.mem_cons.mp he with h | h
        · subst h
          rcases hcf with h | h
          · rw [hem] at h
            exact absurd h (by simp)
          · exact le_trans h ih1
        · exact ih3 e h hem
      · exact ih4

/-- Claim C1: on every rule set and path, `UserAgentRules.is_allowed`
returns `true` when no directive's pattern matches, and otherwise returns
the allow flag of a matching directive whose pattern string has maximal
length among all matching directives; consequently, whenever every
maximal-length matching directive carries the same allow flag, the result
is that flag for any declaration order (only when maximal matches of equal
length disagree does the first of them decide).  In particular the spec's
example rule set `Disallow: /private/` + `Allow: /private/public.html`,
in both declaration orders, allows `/private/public.html` and denies
`/private/other`. -/
theorem is_allowed_longest_match_wins :
    (∀ (r : UserAgentRules) (p : String),
      ((∀ d ∈ r.directives, d.matches p = false) → r.is_allowed p = true) ∧
      ((∃ d ∈ r.directives, d.matches p = true) →
        ∃ d ∈ r.directives, d.matches p = true ∧
          (∀ e ∈ r.directives, e.matches p = true → e.path.length ≤ d.path.length) ∧
          r.is_allowed p = d.allow) ∧
      (∀ b : Bool, (∃ d ∈ r.directives, d.matches p = true) →
        (∀ d ∈ r.directives, d.matches p = true →
          (∀ e ∈ r.directives, e.matches p = true → e.path.length ≤ d.path.length) →
          d.allow = b) →
        r.is_allowed p = b)) ∧
    (privateRules1.is_allowed "/private/public.html" = true ∧
     privateRules1.is_allowed "/private/other" = false ∧
     privateRules2.is_allowed "/private/public.html" = true ∧
     privateRules2.is_allowed "/private/other" = false) := by
  constructor
  · intro r p
    have h0 : ∀ b, (none : Option RobotsDirective) = some b →
        b.matches p = true ∧ (b.path.length : Int) = (-1 : Int) := by
      intro b hb
      cases hb
    rcases bestLoop_spec p r.directives none (-1) h0 with ⟨_, h2, h3, h4⟩
    have hnomatch : (∀ d ∈ r.directives, d.matches p = false) → r.is_allowed p = true := by
      intro hall
      rw [UserAgentRules.is_allowed]
      by_cases hemp : r.directives.isEmpty
      · rw [if_pos hemp]
      · rw [if_neg hemp]
        match hres : (bestLoop r.directives p (none, -1)).1 with
        | none => rfl
        | some b =>
          rcases h2 b hres with ⟨m1, _, m3⟩
          rcases m3 with h | h
          · cases h
          · rw [hall b h] at m1
            cases m1
    have hexist : (∃ d ∈ r.directives, d.matches p = true) →
        ∃ d ∈ r.directives, d.matches p = true ∧
          (∀ e ∈ r.directives, e.matches p = true → e.path.length ≤ d.path.length) ∧
          r.is_allowed p = d.allow := by
      intro ⟨d, hd, hdm⟩
      match hres : (bestLoop r.directives p (none, -1)).1 with
      | none =>
        have := h4 hres
        have hle := h3 d hd hdm
        rw [this.2] at hle
        have : (0 : Int) ≤ (d.path.length : Int) := Int.ofNat_nonneg _
        omega
      | some b =>
        rcases h2 b hres with ⟨m1, m2, m3⟩
        have hbmem : b ∈ r.directives := by
          rcases m3 with h | h
          · cases h
          · exact h
        refine ⟨b, hbmem, m1, ?_, ?_⟩
        · intro e he hem
          have := h3 e he hem
          rw [← m2] at this
          exact_mod_cast this
        · rw [UserAgentRules.is_allowed]
          rw [if_neg (by rw [List.isEmpty_iff]; intro h; rw [h] at hd; cases hd)]
          rw [hres]
    refine ⟨hnomatch, hexist, ?_⟩
    intro b hex hdet
    rcases hexist hex with ⟨d, hd, hdm, hmax, hres⟩
    rw [hres]
    exact hdet d hd hdm hmax
  · exact ⟨by decide, by decide, by decide, by decide⟩

/-- Closed instance of `is_allowed_longest_match_wins`: on the example rule
set and the path `/private/other`, some maximal matching directive decides
the (denied) outcome. -/
theorem is_allowed_longest_match_wins_witness :
    ∃ d ∈ privateRules1.directives, d.matches "/private/other" = true ∧
      (∀ e ∈ privateRules1.directives, e.matches "/private/other" = true →
        e.path.length ≤ d.path.length) ∧
      privateRules1.is_allowed "/private/other" = d.allow :=
  (is_allowed_longest_match_wins.1 privateRules1 "/private/other").2.1 (by decide)

/-- Claim C9: an empty robots path pattern compiles to a match-everything
matcher; a rule set whose only directive is an empty-path `Disallow`
denies every path; and the resolution winner has a nonempty pattern
whenever any matching directive's pattern is nonempty, since the empty
pattern's length 0 cannot beat it. -/
theorem empty_pattern_matches_everything :
    (∀ p : String, (RobotsDirective.mk "" false).matches p = true) ∧
    (∀ r : UserAgentRules, r.directives = [RobotsDirective.mk "" false] →
      ∀ p : String, r.is_allowed p = false) ∧
    (∀ (ds : List RobotsDirective) (p : String) (d : RobotsDirective),
      (bestLoop ds p (none, -1)).1 = some d →
      (∃ e ∈ ds, e.matches p = true ∧ e.path ≠ "") → d.path ≠ "") := by
  have hall : ∀ p : String, (RobotsDirective.mk "" false).matches p = true := by
    intro p
    show rmatch (compilePattern "") p.data = true
    have : compilePattern "" = [RTok.star] := rfl
    rw [this]
    induction p.data with
    | nil => rfl
    | cons c cs ih =>
      rw [rmatch]
      rfl
  refine ⟨hall, ?_, ?_⟩
  · intro r hr p
    rw [UserAgentRules.is_allowed, hr]
    rw [if_neg (by simp)]
    have : bestLoop [RobotsDirective.mk "" false] p (none, -1) =
        (some (RobotsDirective.mk "" false), 0) := by
      rw [bestLoop]
      rw [if_pos (by rw [hall p]; simp)]
      rfl
    rw [this]
  · intro ds p d hres ⟨e, he, hem, hene⟩
    have h0 : ∀ b, (none : Option RobotsDirective) = some b →
        b.matches p = true ∧ (b.path.length : Int) = (-1 : Int) := by
      intro b hb
      cases hb
    rcases bestLoop_spec p ds none (-1) h0 with ⟨_, h2, h3, _⟩
    rcases h2 d hres with ⟨_, m2, _⟩
    have hle := h3 e he hem
    have hepos : 1 ≤ e.path.length := by
      rcases Nat.eq_zero_or_pos e.path.length with h | h
      · have hdat : e.path.data = [] := List.length_eq_zero.mp h
        exact absurd (String.ext hdat) hene
      · exact h
    intro hd0
    rw [hd0] at m2
    simp at m2
    omega

/-- Claim C6: `analyze_content` on an empty or all-whitespace input
returns the fixed result with zero counts and scores, no keywords, and the
thin-content flag set. -/
theorem analyze_content_blank_input (s : String) (h : ∀ c ∈ s.data, pySpace c = true) :
    analyze_content s = ⟨0, 0, 0, 0, 0, 0, [], true⟩ := by
  have hstrip : pyStrip s = "" := by
    have h1 : s.data.dropWhile pySpace = [] := List.dropWhile_eq_nil_iff.mpr h
    show (⟨pyStripList s.data⟩ : String) = ""
    rw [pyStripList, h1]
    rfl
  rw [analyze_content, hstrip]
  simp [emptyResult]

/-- Closed instance of `analyze_content_blank_input` at a concrete
whitespace-only string. -/
theorem analyze_content_blank_input_witness :
    analyze_content " \t\x0c\n " = ⟨0, 0, 0, 0, 0, 0, [], true⟩ :=
  analyze_content_blank_input " \t\x0c\n " (by decide)

/-- Claim C2: on a fresh parser, a 404 robots.txt fetch reports success,
records no parse errors, leaves no rules, and every URL is subsequently
allowed for every user agent. -/
theorem fetch404_allows_everything (u text now : String) (t : Nat) :
    ((mkRobotsParser t).fetch_and_parse u (HttpOutcome.resp 404 text) now).2 = true ∧
    ((mkRobotsParser t).fetch_and_parse u (HttpOutcome.resp 404 text) now).1.parse_errors = [] ∧
    ((mkRobotsParser t).fetch_and_parse u (HttpOutcome.resp 404 text) now).1.user_agent_rules = [] ∧
    ∀ target ua,
      ((mkRobotsParser t).fetch_and_parse u (HttpOutcome.resp 404 text) now).1.is_allowed target ua = true := by
  refine ⟨rfl, rfl, rfl, ?_⟩
  intro target ua
  rfl

/-- The recovery fold marks, position by position, precisely the jobs whose
id occurs in the queried crashed list as `failed`. -/
theorem recover_fold_spec (cs : List CrawlJob) :
    ∀ db : List CrawlJob,
      cs.foldl (fun d c => set_crawl_status d c.id "failed") db =
        db.map (fun j => if cs.any (fun c => c.id == j.id) then { j with status := "failed" } else j) := by
  induction cs with
  | nil =>
    intro db
    simp
  | cons c cs ih =>
    intro db
    rw [List.foldl_cons, ih (set_crawl_status db c.id "failed"), set_crawl_status, List.map_map]
    apply List.map_congr_left
    intro j _
    simp only [Function.comp_apply]
    by_cases h1 : j.id = c.id
    · have hb : (j.id == c.id) = true := beq_iff_eq.mpr h1
      have hb' : (c.id == j.id) = true := beq_iff_eq.mpr h1.symm
      by_cases h2 : (cs.any fun c' => c'.id == j.id) = true
      · simp [hb, hb', h2]
      · simp [hb, hb', h2]
    · have hb : (j.id == c.id) = false := beq_eq_false_iff_ne.mpr h1
      have hb' : (c.id == j.id) = false := beq_eq_false_iff_ne.mpr (Ne.symm h1)
      simp [hb, hb']

/-- Claim C3: the startup recovery sweep sets every persisted job whose
stored status is `running` to `failed` (the id is untouched); no such job
ends up `running` again, i.e. none is resumed or restarted. -/
theorem recover_marks_running_failed (db : List CrawlJob) (i : Nat) (d : CrawlJob)
    (h : i < db.length) (hrun : (db.getD i d).status = "running") :
    ((recover_crashed_crawls db).getD i d).id = (db.getD i d).id ∧
    ((recover_crashed_crawls db).getD i d).status = "failed" := by
  rw [recover_crashed_crawls, recover_fold_spec]
  have hgd : db.getD i d = db.get ⟨i, h⟩ := by
    rw [List.getD_eq_getElem?_getD, List.getElem?_eq_getElem h]
    rfl
  have hlen : i < (db.map (fun j =>
      if (get_crashed_crawls db).any (fun c => c.id == j.id) then { j with status := "failed" } else j)).length := by
    simpa using h
  have hgd2 : (db.map (fun j =>
      if (get_crashed_crawls db).any (fun c => c.id == j.id) then { j with status := "failed" } else j)).getD i d =
      (if (get_crashed_crawls db).any (fun c => c.id == (db.get ⟨i, h⟩).id) then
        { db.get ⟨i, h⟩ with status := "failed" } else db.get ⟨i, h⟩) := by
    rw [List.getD_eq_getElem?_getD, List.getElem?_eq_getElem hlen]
    simp
  rw [hgd] at hrun
  have hmem : db.get ⟨i, h⟩ ∈ get_crashed_crawls db := by
    rw [get_crashed_crawls]
    rw [List.mem_filter]
    exact ⟨List.get_mem db i h, by rw [hrun]; rfl⟩
  have hany : (get_crashed_crawls db).any (fun c => c.id == (db.get ⟨i, h⟩).id) = true :=
    List.any_eq_true.mpr ⟨db.get ⟨i, h⟩, hmem, beq_self_eq_true _⟩
  rw [hgd2, if_pos hany, hgd]
  exact ⟨rfl, rfl⟩

/-- Closed instance of `recover_marks_running_failed` on a two-row jobs
table whose first row is `running`. -/
theorem recover_marks_running_failed_witness :
    0 < sampleDb.length ∧ (sampleDb.getD 0 defaultJob).status = "running" ∧
    ((recover_crashed_crawls sampleDb).getD 0 defaultJob).id = (sampleDb.getD 0 defaultJob).id ∧
    ((recover_crashed_crawls sampleDb).getD 0 defaultJob).status = "failed" :=
  ⟨by decide, by decide,
   recover_marks_running_failed sampleDb 0 defaultJob (by decide) (by decide)⟩

/-- Claim C7: the issue exclusion filter is idempotent — filtering the
filter's own output returns it unchanged — and the `*.json` pattern
removes an issue whose URL path ends in `.json` while keeping one whose
path ends in `.html`. -/
theorem filter_issues_idempotent :
    (∀ (issues : List Issue) (pats : List String),
      filter_issues_by_exclusion_patterns (filter_issues_by_exclusion_patterns issues pats) pats =
        filter_issues_by_exclusion_patterns issues pats) ∧
    filter_issues_by_exclusion_patterns [jsonIssue, htmlIssue] ["*.json"] = [htmlIssue] := by
  constructor
  · intro issues pats
    by_cases hp : pats.isEmpty = true
    · simp [filter_issues_by_exclusion_patterns, hp]
    · simp only [filter_issues_by_exclusion_patterns, hp, if_neg, Bool.false_eq_true,
        if_false]
      rw [List.filter_filter]
      apply List.filter_congr
      intro i _
      cases shouldExclude i pats <;> rfl
  · rfl

/-- `List.contains` is membership (over characters). -/
theorem contains_true_iff (l : List Char) (c : Char) : l.contains c = true ↔ c ∈ l := by
  rw [List.contains_eq_any_beq, List.any_eq_true]
  constructor
  · rintro ⟨x, hx, hb⟩
    rw [show c = x from beq_iff_eq.mp hb]
    exact hx
  · intro h
    exact ⟨c, h, beq_self_eq_true c⟩

/-- `List.contains` is false exactly on non-members. -/
theorem contains_false_iff (l : List Char) (c : Char) : l.contains c = false ↔ c ∉ l := by
  constructor
  · intro h hm
    have ht := (contains_true_iff l c).mpr hm
    rw [h] at ht
    cases ht
  · intro h
    cases hc : l.contains c with
    | false => rfl
    | true => exact absurd ((contains_true_iff l c).mp hc) h

/-- Non-membership transfers down a suffix. -/
theorem contains_false_of_suffix (l1 l2 : List Char) (c : Char) (h : l1 <:+ l2)
    (h2 : l2.contains c = false) : l1.contains c = false :=
  (contains_false_iff l1 c).mpr (fun hm => (contains_false_iff l2 c).mp h2 (h.subset hm))

/-- Non-membership is preserved by append. -/
theorem contains_append_false (l1 l2 : List Char) (c : Char)
    (h1 : l1.contains c = false) (h2 : l2.contains c = false) :
    (l1 ++ l2).contains c = false := by
  rw [contains_false_iff]
  intro hm
  rcases List.mem_append.mp hm with h | h
  · exact (contains_false_iff l1 c).mp h1 h
  · exact (contains_false_iff l2 c).mp h2 h

/-- Non-membership is preserved by a cons of a different character. -/
theorem contains_cons_false (x c : Char) (l : List Char) (hx : ¬ c = x)
    (h : l.contains c = false) : (x :: l).contains c = false := by
  rw [contains_false_iff]
  intro hm
  rcases List.mem_cons.mp hm with h' | h'
  · exact hx h'
  · exact (contains_false_iff l c).mp h h'

/-- Every element differs from an absent character. -/
theorem all_ne_of_contains_false (l : List Char) (c : Char) (h : l.contains c = false) :
    l.all (fun x => x ≠ c) = true := by
  rw [List.all_eq_true]
  intro x hx
  have hc : c ∉ l := (contains_false_iff l c).mp h
  simp only [ne_eq, decide_eq_true_eq]
  exact fun he => hc (he ▸ hx)

/-- `splitFirst` of an absent separator. -/
theorem splitFirst_none (l : List Char) (c : Char) (h : l.contains c = false) :
    splitFirst l c = none := by
  rw [splitFirst, if_neg (by rw [h]; exact Bool.false_ne_true)]

/-- `takeWhile` of an all-satisfying list is the list. -/
theorem takeWhile_all (p : Char → Bool) (l : List Char) (h : l.all p = true) :
    l.takeWhile p = l := by
  induction l with
  | nil => rfl
  | cons x l ih =>
    rw [List.all_cons, Bool.and_eq_true] at h
    rw [List.takeWhile_cons, if_pos h.1, ih h.2]

/-- `dropWhile` of an all-satisfying list is empty. -/
theorem dropWhile_all (p : Char → Bool) (l : List Char) (h : l.all p = true) :
    l.dropWhile p = [] := by
  induction l with
  | nil => rfl
  | cons x l ih =>
    rw [List.all_cons, Bool.and_eq_true] at h
    rw [List.dropWhile_cons, if_pos h.1, ih h.2]

/-- `splitFirst` at the appended separator, when it is absent from the
head list. -/
theorem splitFirst_sep_append (l l2 : List Char) (c : Char) (h : l.contains c = false) :
    splitFirst (l ++ c :: l2) c = some (l, l2) := by
  have hcont : (l ++ c :: l2).contains c = true :=
    (contains_true_iff _ c).mpr (List.mem_append_right l (List.mem_cons_self c l2))
  have hall : l.all (fun x => x ≠ c) = true := all_ne_of_contains_false l c h
  rw [splitFirst, if_pos hcont]
  have htw : (l ++ c :: l2).takeWhile (fun x => x ≠ c) = l := by
    rw [List.takeWhile_append, if_pos (by rw [takeWhile_all _ l hall])]
    rw [List.takeWhile_cons, if_neg (by simp), List.append_nil]
  have hdw : (l ++ c :: l2).dropWhile (fun x => x ≠ c) = c :: l2 := by
    rw [List.dropWhile_append, if_pos (by rw [dropWhile_all _ l hall]; rfl)]
    rw [List.dropWhile_cons, if_neg (by simp)]
  rw [htw, hdw]
  rfl

/-- `splitFirst` over an append whose head list holds the separator. -/
theorem splitFirst_mem_append (l l2 : List Char) (c : Char) (h : l.contains c = true) :
    splitFirst (l ++ l2) c = (splitFirst l c).map (fun p => (p.1, p.2 ++ l2)) := by
  have hmem : c ∈ l := (contains_true_iff l c).mp h
  have hcontA : (l ++ l2).contains c = true :=
    (contains_true_iff _ c).mpr (List.mem_append_left l2 hmem)
  have hdwne : l.dropWhile (fun x => x ≠ c) ≠ [] := by
    intro he
    have := List.dropWhile_eq_nil_iff.mp he c hmem
    simp at this
  have htw : (l ++ l2).takeWhile (fun x => x ≠ c) = l.takeWhile (fun x => x ≠ c) := by
    rw [List.takeWhile_append]
    rw [if_neg ?hlen]
    case hlen =>
      intro hlen
      have heq : l.takeWhile (fun x => x ≠ c) = l :=
        (List.takeWhile_prefix _).eq_of_length hlen
      have hnil : l.dropWhile (fun x => x ≠ c) = [] := by
        have hall : l.all (fun x => x ≠ c) = true := by
          rw [List.all_eq_true]
          exact List.takeWhile_eq_self_iff.mp heq
        exact dropWhile_all _ l hall
      exact hdwne hnil
  have hdw : (l ++ l2).dropWhile (fun x => x ≠ c) = l.dropWhile (fun x => x ≠ c) ++ l2 := by
    rw [List.dropWhile_append]
    rw [if_neg (by rw [List.isEmpty_iff]; exact hdwne)]
  rw [splitFirst, splitFirst, if_pos hcontA, if_pos h, htw, hdw]
  simp only [Option.map]
  have hlen1 : 1 ≤ (l.dropWhile (fun x => x ≠ c)).length := by
    cases hdd : l.dropWhile (fun x => x ≠ c) with
    | nil => exact absurd hdd hdwne
    | cons a as => simp
  rw [List.drop_append_of_le_length hlen1]

/-- The trailing part of a `splitFirst` is a suffix of the input. -/
theorem splitFirst_snd_suffix (l : List Char) (c : Char) (a b : List Char)
    (h : splitFirst l c = some (a, b)) : b <:+ l := by
  rw [splitFirst] at h
  by_cases hc : (l.contains c) = true
  · rw [if_pos hc] at h
    injection h with h'
    have hb : b = (l.dropWhile (fun x => x ≠ c)).drop 1 := (congrArg Prod.snd h').symm
    rw [hb]
    exact (List.drop_suffix 1 _).trans (List.dropWhile_suffix _)
  · rw [if_neg hc] at h
    cases h

/-- The rest after the scheme split is a suffix of the input. -/
theorem schemeSplit_snd_suffix (cs : List Char) : (schemeSplit cs).2 <:+ cs := by
  rw [schemeSplit]
  cases hsf : splitFirst cs ':' with
  | none => exact List.suffix_refl cs
  | some pr =>
    obtain ⟨pre, post⟩ := pr
    cases pre with
    | nil => exact List.suffix_refl cs
    | cons c0 crest =>
      dsimp only
      by_cases hcond : (c0.isAlpha && crest.all schemeChar) = true
      · rw [if_pos hcond]
        exact splitFirst_snd_suffix cs ':' _ _ hsf
      · rw [if_neg hcond]

/-- The rest after the netloc split is a suffix of the input. -/
theorem netlocSplit_snd_suffix (r : List Char) : (netlocSplit r).2 <:+ r := by
  match r with
  | [] => exact List.suffix_refl _
  | [c] => exact List.suffix_refl _
  | c1 :: c2 :: r' =>
    show (if c1 = '/' ∧ c2 = '/' then (r'.takeWhile netDelim, r'.dropWhile netDelim)
      else ([], c1 :: c2 :: r')).2 <:+ c1 :: c2 :: r'
    by_cases h12 : c1 = '/' ∧ c2 = '/'
    · rw [if_pos h12]
      exact ((List.dropWhile_suffix _).trans (List.suffix_cons c2 r')).trans
        (List.suffix_cons c1 (c2 :: r'))
    · rw [if_neg h12]

/-- Appending `?query` after the scheme split lands wholly in the rest. -/
theorem schemeSplit_append (cs qd : List Char) (hq : cs.contains '?' = false) :
    (schemeSplit (cs ++ '?' :: qd)).2 = (schemeSplit cs).2 ++ '?' :: qd := by
  cases hsf : splitFirst cs ':' with
  | some pr =>
    obtain ⟨pre, post⟩ := pr
    have hc : cs.contains ':' = true := by
      cases hcc : cs.contains ':' with
      | true => rfl
      | false =>
        rw [splitFirst_none cs ':' hcc] at hsf
        cases hsf
    have hA : splitFirst (cs ++ '?' :: qd) ':' = some (pre, post ++ '?' :: qd) := by
      rw [splitFirst_mem_append cs _ ':' hc, hsf]
      rfl
    rw [schemeSplit, schemeSplit, hA, hsf]
    cases pre with
    | nil => rfl
    | cons c0 crest =>
      dsimp only
      by_cases hcond : (c0.isAlpha && crest.all schemeChar) = true
      · rw [if_pos hcond, if_pos hcond]
      · rw [if_neg hcond, if_neg hcond]
  | none =>
    have hcc : cs.contains ':' = false := by
      cases h2 : cs.contains ':' with
      | false => rfl
      | true =>
        rw [splitFirst, if_pos h2] at hsf
        cases hsf
    rw [schemeSplit, schemeSplit, hsf]
    cases hsf2 : splitFirst (cs ++ '?' :: qd) ':' with
    | none => rfl
    | some pr2 =>
      obtain ⟨pre2, post2⟩ := pr2
      have hpre2 : pre2 = cs ++ '?' :: qd.takeWhile (fun x => x ≠ ':') := by
        rw [splitFirst] at hsf2
        by_cases hca : ((cs ++ '?' :: qd).contains ':') = true
        · rw [if_pos hca] at hsf2
          injection hsf2 with h'
          injection h' with h1 h2
          rw [← h1]
          rw [List.takeWhile_append,
              if_pos (by rw [takeWhile_all _ cs (all_ne_of_contains_false cs ':' hcc)])]
          rw [List.takeWhile_cons, if_pos (by decide)]
        · rw [if_neg hca] at hsf2
          cases hsf2
      cases hcs : cs with
      | nil =>
        subst hcs
        rw [List.nil_append] at hpre2
        subst hpre2
        dsimp only
        rw [if_neg (fun hcond => absurd (Bool.and_eq_true .. |>.mp hcond).1 (by decide))]
      | cons c0 cr =>
        subst hcs
        rw [List.cons_append] at hpre2
        subst hpre2
        have hallf : ((cr ++ '?' :: qd.takeWhile (fun x => x ≠ ':')).all schemeChar) = false := by
          rw [List.all_eq_false]
          exact ⟨'?', List.mem_append_right cr (List.mem_cons_self _ _), by decide⟩
        dsimp only
        rw [if_neg (by rw [hallf, Bool.and_false]; exact Bool.false_ne_true)]

/-- Appending `?query` after the netloc split lands wholly in the rest. -/
theorem netlocSplit_append (r qd : List Char) :
    (netlocSplit (r ++ '?' :: qd)).2 = (netlocSplit r).2 ++ '?' :: qd := by
  match r with
  | [] =>
    cases qd with
    | nil => rfl
    | cons d ds =>
      show (if ('?' : Char) = '/' ∧ d = '/' then ((d :: ds).takeWhile netDelim, (d :: ds).dropWhile netDelim)
        else ([], '?' :: d :: ds)).2 = [] ++ '?' :: d :: ds
      rw [if_neg (by intro h12; cases h12.1)]
      rfl
  | [c] =>
    show (if c = '/' ∧ ('?' : Char) = '/' then (qd.takeWhile netDelim, qd.dropWhile netDelim)
      else ([], c :: '?' :: qd)).2 = ([], [c]).2 ++ '?' :: qd
    rw [if_neg (by intro h12; cases h12.2)]
    rfl
  | c1 :: c2 :: r' =>
    show (if c1 = '/' ∧ c2 = '/' then ((r' ++ '?' :: qd).takeWhile netDelim, (r' ++ '?' :: qd).dropWhile netDelim)
        else ([], c1 :: c2 :: (r' ++ '?' :: qd))).2 =
      (if c1 = '/' ∧ c2 = '/' then (r'.takeWhile netDelim, r'.dropWhile netDelim)
        else ([], c1 :: c2 :: r')).2 ++ '?' :: qd
    by_cases h12 : c1 = '/' ∧ c2 = '/'
    · rw [if_pos h12, if_pos h12]
      show (r' ++ '?' :: qd).dropWhile netDelim = r'.dropWhile netDelim ++ '?' :: qd
      rw [List.dropWhile_append]
      by_cases hemp : (r'.dropWhile netDelim).isEmpty = true
      · rw [if_pos hemp]
        rw [List.dropWhile_cons, if_neg (by decide)]
        rw [List.isEmpty_iff.mp hemp]
        rfl
      · rw [if_neg hemp]
    · rw [if_neg h12, if_neg h12]
      rfl

/-- The query string never reaches the path: for a URL without `#` or `?`
and a query without `#`, appending `?query` leaves `urlparse`'s path
unchanged. -/
theorem pyUrlparse_query_ignored (u q : String)
    (hu1 : u.data.contains '#' = false) (hu2 : u.data.contains '?' = false)
    (hq : q.data.contains '#' = false) :
    (pyUrlparse (u ++ "?" ++ q)).path = (pyUrlparse u).path := by
  have hdata : (u ++ "?" ++ q).data = u.data ++ '?' :: q.data := by
    rw [String.data_append, String.data_append, List.append_assoc]
    rfl
  simp only [pyUrlparse, hdata]
  rw [schemeSplit_append u.data q.data hu2]
  have hsufS : (schemeSplit u.data).2 <:+ u.data := schemeSplit_snd_suffix u.data
  have hrA : (schemeSplit u.data).2.contains '#' = false :=
    contains_false_of_suffix _ _ _ hsufS hu1
  have hrB : (schemeSplit u.data).2.contains '?' = false :=
    contains_false_of_suffix _ _ _ hsufS hu2
  rw [netlocSplit_append (schemeSplit u.data).2 q.data]
  have hsufN : (netlocSplit (schemeSplit u.data).2).2 <:+ (schemeSplit u.data).2 :=
    netlocSplit_snd_suffix _
  have hr2A : (netlocSplit (schemeSplit u.data).2).2.contains '#' = false :=
    contains_false_of_suffix _ _ _ hsufN hrA
  have hr2B : (netlocSplit (schemeSplit u.data).2).2.contains '?' = false :=
    contains_false_of_suffix _ _ _ hsufN hrB
  have hfragA : ((netlocSplit (schemeSplit u.data).2).2 ++ '?' :: q.data).contains '#' = false :=
    contains_append_false _ _ _ hr2A (contains_cons_false _ _ _ (by decide) hq)
  rw [show fragSplit ((netlocSplit (schemeSplit u.data).2).2 ++ '?' :: q.data) =
      ((netlocSplit (schemeSplit u.data).2).2 ++ '?' :: q.data, []) from by
    rw [fragSplit, splitFirst_none _ _ hfragA]]
  rw [show fragSplit (netlocSplit (schemeSplit u.data).2).2 =
      ((netlocSplit (schemeSplit u.data).2).2, []) from by
    rw [fragSplit, splitFirst_none _ _ hr2A]]
  rw [show querySplit ((netlocSplit (schemeSplit u.data).2).2 ++ '?' :: q.data) =
      ((netlocSplit (schemeSplit u.data).2).2, q.data) from by
    rw [querySplit, splitFirst_sep_append _ _ _ hr2B]]
  rw [show querySplit (netlocSplit (schemeSplit u.data).2).2 =
      ((netlocSplit (schemeSplit u.data).2).2, []) from by
    rw [querySplit, splitFirst_none _ _ hr2B]]

/-- The pattern prefix-strip of the starless branch is the identity there:
`rstrip('*')` changes nothing when the pattern has no `*`. -/
theorem rstripStar_of_no_star (p : String) (h : p.data.contains '*' = false) :
    rstripStar p = p := by
  rw [rstripStar]
  have hall : ∀ c ∈ p.data, c ≠ '*' := by
    intro c hc he
    rw [List.contains_eq_any_beq] at h
    have : p.data.any (fun x => '*' == x) = true :=
      List.any_eq_true.mpr ⟨c, hc, by rw [he]; rfl⟩
    rw [h] at this
    cases this
  have : p.data.reverse.dropWhile (fun c => c = '*') = p.data.reverse := by
    cases hrev : p.data.reverse with
    | nil => rfl
    | cons c cs =>
      rw [List.dropWhile_cons]
      have hc : c ∈ p.data := by
        rw [← List.mem_reverse, hrev]
        exact List.mem_cons_self c cs
      rw [if_neg (by simpa using hall c hc)]
  rw [this, List.reverse_reverse]

/-- Claim C8: for an active (non-blank, non-comment) pattern, the per-issue
exclusion decision is the path-only function `patternExcludes` applied to
the URL's parsed path — so two issues with equal parsed paths always get
the same decision, and appending a `?query` to a fragment-free, query-free
URL never changes the parsed path (concretely, a `.json` query on an
`.html` path does not exclude, and a `.html` query on a `.json` path still
does); a pattern containing `*` excludes exactly on a glob match of the
path, and a starless pattern excludes exactly when the path equals it or
starts with it. -/
theorem exclusion_decision_path_only (i : Issue) (p : String)
    (hact : patternSkipped p = false) :
    (shouldExclude i [p] = patternExcludes (pyUrlparse (issueUrl i)).path p) ∧
    (∀ j : Issue, (pyUrlparse (issueUrl j)).path = (pyUrlparse (issueUrl i)).path →
      shouldExclude j [p] = shouldExclude i [p]) ∧
    (∀ u2 q2 : String, u2.data.contains '#' = false → u2.data.contains '?' = false →
      q2.data.contains '#' = false →
      (pyUrlparse (u2 ++ "?" ++ q2)).path = (pyUrlparse u2).path) ∧
    (p.data.contains '*' = true →
      patternExcludes (pyUrlparse (issueUrl i)).path p =
        fnmatchB (pyUrlparse (issueUrl i)).path p) ∧
    (p.data.contains '*' = false →
      patternExcludes (pyUrlparse (issueUrl i)).path p =
        ((pyUrlparse (issueUrl i)).path == p ||
          leadsWith p.data (pyUrlparse (issueUrl i)).path.data)) ∧
    (shouldExclude [("url", "https://e.com/x.html?name=.json")] ["*.json"] = false ∧
     shouldExclude [("url", "https://e.com/x.json?name=.html")] ["*.json"] = true) := by
  refine ⟨?_, ?_, fun u2 q2 a b c => pyUrlparse_query_ignored u2 q2 a b c, ?_, ?_, rfl, rfl⟩
  · rw [shouldExclude, List.any_cons, List.any_nil, Bool.or_false, hact]
    rfl
  · intro j hj
    rw [shouldExclude, shouldExclude, hj]
  · intro hs
    rw [patternExcludes, if_pos hs]
  · intro hs
    rw [patternExcludes, if_neg (by rw [hs]; exact Bool.false_ne_true)]
    rw [rstripStar_of_no_star p hs]

/-- Closed instance of `exclusion_decision_path_only`: for the active
pattern `*.json` and the `.json` issue, the loop decision equals the
path-only glob decision. -/
theorem exclusion_decision_path_only_witness :
    shouldExclude jsonIssue ["*.json"] =
      patternExcludes (pyUrlparse (issueUrl jsonIssue)).path "*.json" :=
  (exclusion_decision_path_only jsonIssue "*.json" (by decide)).1

/-- Appending a fresh binding does not change other lookups. -/
theorem dictGet_append_ne {α : Type} (l : List (String × α)) (k k' : String) (v : α)
    (h : ¬ k = k') : dictGet (l ++ [(k, v)]) k' = dictGet l k' := by
  induction l with
  | nil => simp [dictGet, h]
  | cons p l ih =>
    simp only [List.cons_append, dictGet, List.append_eq]
    rw [ih]

/-- A key that is not present looks up to `none`. -/
theorem dictGet_none_of_has_false {α : Type} (l : List (String × α)) (k : String)
    (h : dictHas l k = false) : dictGet l k = none := by
  induction l with
  | nil => rfl
  | cons p l ih =>
    rw [dictHas, List.any_cons, Bool.or_eq_false_iff] at h
    rw [dictGet, if_neg (by rw [h.1]; exact Bool.false_ne_true)]
    exact ih h.2

/-- A key that is present looks up to some value. -/
theorem dictGet_isSome_of_has {α : Type} (l : List (String × α)) (k : String)
    (h : dictHas l k = true) : (dictGet l k).isSome = true := by
  induction l with
  | nil => cases h
  | cons p l ih =>
    rw [dictHas, List.any_cons, Bool.or_eq_true] at h
    rw [dictGet]
    by_cases hp : (p.1 == k) = true
    · rw [if_pos hp]; rfl
    · rw [if_neg hp]
      rcases h with h | h
      · exact absurd h hp
      · exact ih h

/-- Appending a binding for an absent key makes it look up to the new
value. -/
theorem dictGet_append_self {α : Type} (l : List (String × α)) (k : String) (v : α)
    (h : dictGet l k = none) : dictGet (l ++ [(k, v)]) k = some v := by
  induction l with
  | nil => simp [dictGet]
  | cons p l ih =>
    rw [dictGet] at h
    by_cases hp : (p.1 == k) = true
    · rw [if_pos hp] at h; cases h
    · rw [if_neg hp] at h
      rw [List.cons_append, dictGet, if_neg hp]
      exact ih h

/-- `ensureUA` does not change lookups of other keys. -/
theorem ensureUA_get_ne (rules : List (String × UserAgentRules)) (ua ua' : String)
    (h : ¬ ua = ua') : dictGet (ensureUA rules ua) ua' = dictGet rules ua' := by
  rw [ensureUA]
  by_cases hh : dictHas rules ua = true
  · rw [if_pos hh]
  · rw [if_neg hh]
    exact dictGet_append_ne rules ua ua' _ h

/-- After `ensureUA`, the key looks up to its old rule set or a fresh
one — exactly `uaRules`. -/
theorem ensureUA_get_self (rules : List (String × UserAgentRules)) (ua : String) :
    dictGet (ensureUA rules ua) ua = some (uaRules rules ua) := by
  rw [ensureUA, uaRules]
  by_cases hh : dictHas rules ua = true
  · rw [if_pos hh]
    match hg : dictGet rules ua with
    | some r => rfl
    | none =>
      have hs := dictGet_isSome_of_has rules ua hh
      rw [hg] at hs
      cases hs
  · rw [if_neg hh]
    have hn := dictGet_none_of_has_false rules ua (Bool.eq_false_iff.mpr hh)
    rw [hn, dictGet_append_self rules ua _ hn]
    rfl

/-- `dictUpdate` does not change lookups of other keys. -/
theorem dictUpdate_get_ne {α : Type} (l : List (String × α)) (k k' : String) (f : α → α)
    (h : ¬ k' = k) : dictGet (dictUpdate l k f) k' = dictGet l k' := by
  induction l with
  | nil => rfl
  | cons p l ih =>
    simp only [dictUpdate, List.map_cons]
    by_cases hp : (p.1 == k) = true
    · have hk : p.1 = k := beq_iff_eq.mp hp
      have hne : ¬ ((p.1 == k') = true) := by
        rw [beq_iff_eq, hk]
        exact fun he => h he.symm
      rw [if_pos hp, dictGet, dictGet, if_neg hne, if_neg hne]
      exact ih
    · rw [if_neg hp, dictGet, dictGet]
      by_cases hp' : (p.1 == k') = true
      · rw [if_pos hp', if_pos hp']
      · rw [if_neg hp', if_neg hp']
        exact ih

/-- `dictUpdate` maps the stored value at the key. -/
theorem dictUpdate_get_self {α : Type} (l : List (String × α)) (k : String) (f : α → α) :
    dictGet (dictUpdate l k f) k = (dictGet l k).map f := by
  induction l with
  | nil => rfl
  | cons p l ih =>
    simp only [dictUpdate, List.map_cons]
    by_cases hp : (p.1 == k) = true
    · rw [if_pos hp, dictGet, dictGet, if_pos hp, if_pos hp]
      rfl
    · rw [if_neg hp, dictGet, dictGet, if_neg hp, if_neg hp]
      exact ih

/-- One step of the attach loop appends the directive to the rule set of
the stepped agent. -/
theorem attach_step_self (rules : List (String × UserAgentRules)) (u path : String)
    (allow : Bool) :
    uaRules (dictUpdate (ensureUA rules u) u (fun r => r.add_directive path allow)) u =
      (uaRules rules u).add_directive path allow := by
  rw [uaRules, dictUpdate_get_self, ensureUA_get_self]
  rfl

/-- One step of the attach loop leaves other agents' lookups unchanged. -/
theorem attach_step_ne (rules : List (String × UserAgentRules)) (u ua path : String)
    (allow : Bool) (h : ¬ ua = u) :
    dictGet (dictUpdate (ensureUA rules u) u (fun r => r.add_directive path allow)) ua =
      dictGet rules ua := by
  rw [dictUpdate_get_ne _ _ _ _ h, ensureUA_get_ne _ _ _ (fun he => h he.symm)]

/-- The attach loop leaves agents outside the group untouched. -/
theorem attachAll_get_not_mem (uas : List String) (path : String) (allow : Bool)
    (ua : String) :
    ∀ rules : List (String × UserAgentRules), ua ∉ uas →
      dictGet (attachAll uas rules path allow) ua = dictGet rules ua := by
  induction uas with
  | nil => intro rules _; rfl
  | cons u rest ih =>
    intro rules h
    have h1 : ¬ ua = u := fun he => h (he ▸ List.mem_cons_self u rest)
    have h2 : ua ∉ rest := fun hm => h (List.mem_cons_of_mem u hm)
    rw [attachAll, List.foldl_cons]
    rw [show List.foldl _ _ rest = attachAll rest
        (dictUpdate (ensureUA rules u) u (fun r => r.add_directive path allow)) path allow from rfl]
    rw [ih _ h2, attach_step_ne rules u ua path allow h1]

/-- A directive already present in an agent's rule set survives the attach
loop (the loop only appends). -/
theorem attachAll_get_mono (uas : List String) (path : String) (allow : Bool)
    (ua : String) (dir : RobotsDirective) :
    ∀ rules : List (String × UserAgentRules),
      dir ∈ (uaRules rules ua).directives →
      dir ∈ (uaRules (attachAll uas rules path allow) ua).directives := by
  induction uas with
  | nil => intro rules h; exact h
  | cons u rest ih =>
    intro rules h
    rw [attachAll, List.foldl_cons]
    rw [show List.foldl _ _ rest = attachAll rest
        (dictUpdate (ensureUA rules u) u (fun r => r.add_directive path allow)) path allow from rfl]
    apply ih
    by_cases hu : ua = u
    · subst hu
      rw [attach_step_self]
      exact List.mem_append_left _ h
    · rw [uaRules, attach_step_ne rules u ua path allow hu]
      exact h

/-- Every agent of the group receives the directive. -/
theorem attachAll_get_mem (uas : List String) (path : String) (allow : Bool)
    (ua : String) :
    ∀ rules : List (String × UserAgentRules), ua ∈ uas →
      RobotsDirective.mk path allow ∈ (uaRules (attachAll uas rules path allow) ua).directives := by
  induction uas with
  | nil => intro rules h; cases h
  | cons u rest ih =>
    intro rules h
    rw [attachAll, List.foldl_cons]
    rw [show List.foldl _ _ rest = attachAll rest
        (dictUpdate (ensureUA rules u) u (fun r => r.add_directive path allow)) path allow from rfl]
    by_cases hu : ua = u
    · subst hu
      apply attachAll_get_mono
      rw [attach_step_self]
      exact List.mem_append_right _ (List.mem_singleton.mpr rfl)
    · rcases List.mem_cons.mp h with he | hm
      · exact absurd he hu
      · exact ih _ hm

/-- Counterexample to claim C4 as stated: in `c4content`, lines 5 and 6
are consecutive `user-agent` lines (`A`, then `C`) with no directive
between them, so under the claim they join one shared group and the
following `disallow: /z` attaches to both; in fact `/z` lands only on `C`
(`A` keeps just `/x`): `A`'s rule set already carried a directive from its
earlier group, which made the `C` line open a fresh group. -/
theorem consecutive_user_agents_not_shared :
    RobotsDirective.mk "/z" false ∉
      (uaRules (mkRobotsParser.parse c4content).user_agent_rules "A").directives ∧
    RobotsDirective.mk "/z" false ∈
      (uaRules (mkRobotsParser.parse c4content).user_agent_rules "C").directives := by
  constructor
  · decide
  · decide

/-- Claim C4 as amended: a `user-agent` line with value `v` extends the
current group when the group is empty or when the rule set of the group's
first agent has no directives recorded (whether from this group or carried
over from an earlier group with the same name); otherwise it starts the
fresh group `[v]`.  An `allow`/`disallow` line with a nonempty current
group leaves the group unchanged, attaches the directive to every agent in
the group, and leaves every other agent's stored rules untouched. -/
theorem user_agent_group_boundary (ls : LoopState) (n : Nat) (v : String) :
    ((handleDirective ls n "user-agent" v).current_user_agents =
      match ls.current_user_agents with
      | [] => ls.current_user_agents ++ [v]
      | ua0 :: _ =>
        if (ruleSetOf ls ua0).directives.isEmpty then ls.current_user_agents ++ [v]
        else [v]) ∧
    (∀ d w : String, (d = "disallow" ∨ d = "allow") → ls.current_user_agents ≠ [] →
      (handleDirective ls n d w).current_user_agents = ls.current_user_agents ∧
      (∀ ua ∈ ls.current_user_agents,
        RobotsDirective.mk w (d == "allow") ∈
          (ruleSetOf (handleDirective ls n d w) ua).directives) ∧
      (∀ ua, ua ∉ ls.current_user_agents →
        dictGet (handleDirective ls n d w).user_agent_rules ua =
          dictGet ls.user_agent_rules ua)) := by
  constructor
  · rw [handleDirective, if_pos rfl]
    cases hcur : ls.current_user_agents with
    | nil => rfl
    | cons ua0 rest =>
      dsimp only
      by_cases hv : ua0 = v
      · subst hv
        rw [ensureUA_get_self]
        rfl
      · rw [ensureUA_get_ne _ _ _ (fun he => hv he.symm)]
        cases hg : dictGet ls.user_agent_rules ua0 with
        | some r =>
          have hrs : ruleSetOf ls ua0 = r := by rw [ruleSetOf, uaRules, hg]; rfl
          rw [hrs]
        | none =>
          have hrs : ruleSetOf ls ua0 = mkUserAgentRules ua0 := by rw [ruleSetOf, uaRules, hg]; rfl
          rw [hrs]
          rfl
  · intro d w hd hne
    have hne' : ls.current_user_agents.isEmpty = false := by
      cases hls : ls.current_user_agents with
      | nil => exact absurd hls hne
      | cons a l => rfl
    have hstep : handleDirective ls n d w =
        { ls with user_agent_rules := attachAll ls.current_user_agents ls.user_agent_rules w (d == "allow") } := by
      rcases hd with rfl | rfl
      · rw [handleDirective, if_neg (by decide), if_pos (by decide)]
        rw [if_neg (by rw [hne']; exact Bool.false_ne_true)]
      · rw [handleDirective, if_neg (by decide), if_pos (by decide)]
        rw [if_neg (by rw [hne']; exact Bool.false_ne_true)]
    rw [hstep]
    refine ⟨rfl, ?_, ?_⟩
    · intro ua hua
      exact attachAll_get_mem ls.current_user_agents w (d == "allow") ua ls.user_agent_rules hua
    · intro ua hua
      exact attachAll_get_not_mem ls.current_user_agents w (d == "allow") ua ls.user_agent_rules hua

/-- Closed instance of `user_agent_group_boundary`: with current group
`[A]` where `A` already has a directive, the `user-agent: C` line opens
the fresh group `[C]`; a subsequent `disallow: /z` on group `[C]` reaches
`C` and leaves `A`'s stored rules untouched. -/
theorem user_agent_group_boundary_witness :
    (handleDirective
        (LoopState.mk [("A", UserAgentRules.mk "A" [RobotsDirective.mk "/x" false] none none [])] [] [] ["A"])
        6 "user-agent" "C").current_user_agents = ["C"] ∧
    RobotsDirective.mk "/z" false ∈
      (ruleSetOf (handleDirective
        (LoopState.mk [("A", UserAgentRules.mk "A" [RobotsDirective.mk "/x" false] none none [])] [] [] ["C"])
        7 "disallow" "/z") "C").directives := by
  constructor
  · have h := (user_agent_group_boundary
      (LoopState.mk [("A", UserAgentRules.mk "A" [RobotsDirective.mk "/x" false] none none [])] [] [] ["A"])
      6 "C").1
    rw [h]
    rfl
  · exact ((user_agent_group_boundary
      (LoopState.mk [("A", UserAgentRules.mk "A" [RobotsDirective.mk "/x" false] none none [])] [] [] ["C"])
      7 "/z").2 "disallow" "/z" (Or.inl rfl) (by decide)).2.1 "C" (by decide)

/-- `dictHas` over an appended singleton. -/
theorem dictHas_append {α : Type} (l : List (String × α)) (a k : String) (v : α) :
    dictHas (l ++ [(a, v)]) k = (dictHas l k || (a == k)) := by
  simp [dictHas, List.any_append]

/-- Folding `add_subdomain` over entries whose keys are fresh and distinct
appends exactly those entries and their parsed parsers. -/
theorem fromDict_fold (entries : List (String × String)) :
    ∀ m : CustomRobotsManager,
      (entries.map Prod.fst).Nodup →
      (∀ k ∈ entries.map Prod.fst,
        dictHas m.custom_robots k = false ∧ dictHas m.parsers k = false) →
      entries.foldl (fun acc p => acc.add_subdomain p.1 p.2) m =
        CustomRobotsManager.mk (m.custom_robots ++ entries)
          (m.parsers ++ entries.map (fun p => (p.1, mkRobotsParser.parse p.2))) := by
  induction entries with
  | nil =>
    intro m _ _
    cases m
    simp
  | cons e rest ih =>
    intro m hnd hfresh
    have hfresh_e := hfresh e.1 (by simp)
    have hstep : m.add_subdomain e.1 e.2 =
        CustomRobotsManager.mk (m.custom_robots ++ [(e.1, e.2)])
          (m.parsers ++ [(e.1, mkRobotsParser.parse e.2)]) := by
      rw [CustomRobotsManager.add_subdomain, dictSet, dictSet]
      rw [if_neg (by rw [hfresh_e.1]; exact Bool.false_ne_true),
          if_neg (by rw [hfresh_e.2]; exact Bool.false_ne_true)]
    rw [List.foldl_cons, hstep]
    have hnd' : (rest.map Prod.fst).Nodup := (List.nodup_cons.mp (by simpa using hnd)).2
    have hnotin : e.1 ∉ rest.map Prod.fst := (List.nodup_cons.mp (by simpa using hnd)).1
    rw [ih (CustomRobotsManager.mk (m.custom_robots ++ [(e.1, e.2)])
          (m.parsers ++ [(e.1, mkRobotsParser.parse e.2)])) hnd' ?fresh]
    case fresh =>
      intro k hk
      have hke : ¬ e.1 = k := fun he => hnotin (he ▸ hk)
      have hkm := hfresh k (List.mem_cons_of_mem _ hk)
      constructor
      · show dictHas (m.custom_robots ++ [(e.1, e.2)]) k = false
        rw [dictHas_append, hkm.1, Bool.false_or]
        exact beq_eq_false_iff_ne.mpr hke
      · show dictHas (m.parsers ++ [(e.1, mkRobotsParser.parse e.2)]) k = false
        rw [dictHas_append, hkm.2, Bool.false_or]
        exact beq_eq_false_iff_ne.mpr hke
    simp [List.append_assoc]

/-- Claim C10: serializing a well-formed `CustomRobotsManager` with
`to_dict` and loading it into a fresh manager with `from_dict` reproduces
the exact subdomain → content mapping, and the reconstructed manager's
`is_allowed` agrees with the original on every URL and user agent. -/
theorem custom_robots_roundtrip (m : CustomRobotsManager) (hwf : CRMWf m) :
    (mkCustomRobotsManager.from_dict m.to_dict).custom_robots = m.custom_robots ∧
    ∀ url ua, (mkCustomRobotsManager.from_dict m.to_dict).is_allowed url ua =
      m.is_allowed url ua := by
  have hkey : mkCustomRobotsManager.from_dict m.to_dict = m := by
    rw [CustomRobotsManager.from_dict, CustomRobotsManager.to_dict]
    rw [fromDict_fold m.custom_robots _ hwf.1 (by intro k _; exact ⟨rfl, rfl⟩)]
    show CustomRobotsManager.mk ([] ++ m.custom_robots)
        ([] ++ m.custom_robots.map (fun p => (p.1, mkRobotsParser.parse p.2))) = m
    rw [List.nil_append, List.nil_append, ← hwf.2]
  rw [hkey]
  exact ⟨rfl, fun url ua => rfl⟩

/-- Closed instance of `custom_robots_roundtrip` on a one-subdomain
manager built through `add_subdomain`. -/
theorem custom_robots_roundtrip_witness :
    CRMWf sampleManager ∧
    (mkCustomRobotsManager.from_dict sampleManager.to_dict).custom_robots =
      sampleManager.custom_robots ∧
    (mkCustomRobotsManager.from_dict sampleManager.to_dict).is_allowed
        "https://sub.example.com/private/x" "*" =
      sampleManager.is_allowed "https://sub.example.com/private/x" "*" :=
  ⟨⟨by decide, by decide⟩,
   (custom_robots_roundtrip sampleManager ⟨by decide, by decide⟩).1,
   (custom_robots_roundtrip sampleManager ⟨by decide, by decide⟩).2 "https://sub.example.com/private/x" "*"⟩

/-- Counterexample to claim C5 as stated: the malformed `request-rate`
value `5` (not of the `N/M` form) is silently ignored — parsing records no
parse error for it (and leaves the rate unset), whereas the claim says
every malformed value is recorded as a parse error. -/
theorem request_rate_silently_ignored :
    (mkRobotsParser.parse c5content).parse_errors = [] ∧
    ((dictGet (mkRobotsParser.parse c5content).user_agent_rules "*").getD
      (mkUserAgentRules "*")).request_rate = none :=
  ⟨rfl, rfl⟩

/-- Claim C5 as amended: a `crawl-delay` value rejected by `float()` is
recorded as a parse error and the state is otherwise unchanged; a
`request-rate` value that splits on `/` into exactly two fields with a
field rejected by `int()` is likewise recorded and ignored; but a
`request-rate` value that does not split into exactly two fields is
ignored silently, with no recorded error.  In every case the rule sets —
hence every `crawl_delay` and `request_rate` — are left unchanged and
parsing continues with the next line. -/
theorem malformed_delay_and_rate_ignored (ls : LoopState) (n : Nat) (v : String) :
    (pyFloat? v = none →
      handleDirective ls n "crawl-delay" v =
        { ls with parse_errors :=
            ls.parse_errors ++ ["Line " ++ toString n ++ ": Invalid crawl-delay value"] }) ∧
    (((pySplitChar '/' v.data).map (fun l => (⟨l⟩ : String))).length = 2 →
      (pyInt? (((pySplitChar '/' v.data).map (fun l => (⟨l⟩ : String))).headD "") = none ∨
       pyInt? (((pySplitChar '/' v.data).map (fun l => (⟨l⟩ : String))).getD 1 "") = none) →
      handleDirective ls n "request-rate" v =
        { ls with parse_errors :=
            ls.parse_errors ++ ["Line " ++ toString n ++ ": Invalid request-rate value"] }) ∧
    (((pySplitChar '/' v.data).map (fun l => (⟨l⟩ : String))).length ≠ 2 →
      handleDirective ls n "request-rate" v = ls) := by
  refine ⟨?_, ?_, ?_⟩
  · intro hf
    simp [handleDirective, hf]
  · intro hlen hbad
    have h2 : ∃ a b, pySplitChar '/' v.data = [a, b] := by
      match hsp : pySplitChar '/' v.data with
      | [a, b] => exact ⟨a, b, rfl⟩
      | [] => rw [hsp] at hlen; simp at hlen
      | [a] => rw [hsp] at hlen; simp at hlen
      | a :: b :: c :: rest => rw [hsp] at hlen; simp at hlen
    obtain ⟨a, b, hsp⟩ := h2
    rw [hsp] at hbad
    cases hA : pyInt? (⟨a⟩ : String) with
    | none => simp [handleDirective, hsp, hA]
    | some x =>
      cases hB : pyInt? (⟨b⟩ : String) with
      | none => simp [handleDirective, hsp, hA, hB]
      | some y =>
        simp [hA, hB] at hbad
  · intro hlen
    rw [List.length_map] at hlen
    simp [handleDirective, hlen]

/-- Closed instance of `malformed_delay_and_rate_ignored`: on a live parse
state, the malformed `crawl-delay` value `fast` is recorded and changes
nothing else, and the one-field `request-rate` value `5` is ignored with
no error. -/
theorem malformed_delay_and_rate_ignored_witness :
    handleDirective (LoopState.mk [("*", mkUserAgentRules "*")] [] [] ["*"]) 2 "crawl-delay" "fast" =
      LoopState.mk [("*", mkUserAgentRules "*")] [] ["Line 2: Invalid crawl-delay value"] ["*"] ∧
    handleDirective (LoopState.mk [("*", mkUserAgentRules "*")] [] [] ["*"]) 2 "request-rate" "5" =
      LoopState.mk [("*", mkUserAgentRules "*")] [] [] ["*"] :=
  ⟨(malformed_delay_and_rate_ignored (LoopState.mk [("*", mkUserAgentRules "*")] [] [] ["*"]) 2 "fast").1 (by decide),
   (malformed_delay_and_rate_ignored (LoopState.mk [("*", mkUserAgentRules "*")] [] [] ["*"]) 2 "5").2.2 (by decide)⟩

/-- Closed instance of `empty_pattern_matches_everything`: the bare
`Disallow:` rule set denies `/anything`, and with a nonempty matching
pattern present the winner is nonempty. -/
theorem empty_pattern_matches_everything_witness :
    (UserAgentRules.mk "*" [RobotsDirective.mk "" false] none none []).is_allowed "/anything" = false ∧
    (RobotsDirective.mk "/a" false).path ≠ "" :=
  ⟨empty_pattern_matches_everything.2.1 _ rfl "/anything",
   empty_pattern_matches_everything.2.2 [RobotsDirective.mk "" false, RobotsDirective.mk "/a" false]
     "/a/b" (RobotsDirective.mk "/a" false) (by decide) ⟨RobotsDirective.mk "/a" false, by decide, by decide, by decide⟩⟩

end WNWW
